import Mathlib

/-!
Verification of the media-sorting program (`main.py`): a shallow embedding of
its classification, year-resolution, duplicate-detection and relocation logic,
together with theorems settling the specification's claims.

Modelling conventions:
* Python strings are lists of characters (`Str`); paths use `/` as separator,
  matching the POSIX semantics of the `os.path` helpers the program calls.
* The filesystem is an association list from paths to file data (`FS`), plus a
  list of existing directories.  Fallible OS calls are modelled with `Option`
  (`none` = the call raises) and `Except Unit` where an exception must
  propagate to a caller.
* The external collaborators (SHA-256, `datetime.fromtimestamp(..).year`,
  PIL/hachoir metadata extraction) are opaque parameters of an `Env` or
  per-file fields, exactly as the spec's "excluded collaborators" clause asks.
-/

namespace SortPhotoVideo

/-- A Python string, embedded as its list of characters. -/
abbrev Str := List Char

/-- Convenience injection from Lean string literals. -/
def strOf (s : String) : Str := s.data

instance {ε α : Type} [DecidableEq ε] [DecidableEq α] : DecidableEq (Except ε α) :=
  fun a b =>
    match a, b with
    | .error e1, .error e2 =>
      if h : e1 = e2 then isTrue (by rw [h])
      else isFalse (fun hh => h (by injection hh))
    | .ok x, .ok y =>
      if h : x = y then isTrue (by rw [h])
      else isFalse (fun hh => h (by injection hh))
    | .error _, .ok _ => isFalse (fun hh => Except.noConfusion hh)
    | .ok _, .error _ => isFalse (fun hh => Except.noConfusion hh)

/-! ### Decimal rendering of a counter

`natStr n` models Python's `str(n)` / `f"{n}"`: the base-10 digits of `n`,
most significant first.  (`Nat.digits` is little-endian, hence the
`reverse`.) -/

/-- Model of Python `str(n)` for a nonnegative integer `n`. -/
def natStr (n : Nat) : Str :=
  if n = 0 then ['0'] else ((Nat.digits 10 n).map Nat.digitChar).reverse

theorem digitChar_inj_lt10 {a b : Nat} (ha : a < 10) (hb : b < 10)
    (h : Nat.digitChar a = Nat.digitChar b) : a = b := by
  have : ∀ x y : Fin 10, Nat.digitChar x = Nat.digitChar y → x = y := by decide
  have := this ⟨a, ha⟩ ⟨b, hb⟩ h
  exact congrArg Fin.val this

theorem digitChar_isDigit_lt10 {a : Nat} (ha : a < 10) :
    (Nat.digitChar a).isDigit = true := by
  have : ∀ x : Fin 10, (Nat.digitChar x).isDigit = true := by decide
  exact this ⟨a, ha⟩

theorem map_digitChar_inj : ∀ (l₁ l₂ : List Nat), (∀ x ∈ l₁, x < 10) →
    (∀ x ∈ l₂, x < 10) → l₁.map Nat.digitChar = l₂.map Nat.digitChar → l₁ = l₂
  | [], [], _, _, _ => rfl
  | [], _ :: _, _, _, h => by simp at h
  | _ :: _, [], _, _, h => by simp at h
  | a :: l₁, b :: l₂, h₁, h₂, h => by
    simp only [List.map_cons, List.cons.injEq] at h
    have hab : a = b :=
      digitChar_inj_lt10 (h₁ a (by simp)) (h₂ b (by simp)) h.1
    have : l₁ = l₂ := map_digitChar_inj l₁ l₂
      (fun x hx => h₁ x (by simp [hx])) (fun x hx => h₂ x (by simp [hx])) h.2
    rw [hab, this]

theorem natStr_all_digits (n : Nat) : ∀ c ∈ natStr n, c.isDigit = true := by
  intro c hc
  unfold natStr at hc
  split at hc
  · simp at hc; subst hc; decide
  · rw [List.mem_reverse] at hc
    obtain ⟨d, hd, rfl⟩ := List.mem_map.mp hc
    exact digitChar_isDigit_lt10 (Nat.digits_lt_base (by norm_num) hd)

theorem natStr_of_ne_zero {n : Nat} (hn : n ≠ 0) :
    natStr n = ((Nat.digits 10 n).map Nat.digitChar).reverse := if_neg hn

theorem natStr_ne_zero_str {n : Nat} (hn : n ≠ 0) : natStr n ≠ ['0'] := by
  intro hcontra
  rw [natStr_of_ne_zero hn] at hcontra
  have hmap : (Nat.digits 10 n).map Nat.digitChar = ['0'] := by
    have := congrArg List.reverse hcontra
    simpa using this
  have hne : Nat.digits 10 n ≠ [] := Nat.digits_ne_nil_iff_ne_zero.mpr hn
  have hlast := Nat.getLast_digit_ne_zero 10 hn
  obtain ⟨d, hd, h0⟩ : ∃ d, Nat.digits 10 n = [d] ∧ Nat.digitChar d = '0' := by
    cases hdig : Nat.digits 10 n with
    | nil => exact absurd hdig hne
    | cons x xs =>
      rw [hdig] at hmap
      cases xs with
      | nil => simp at hmap; exact ⟨x, rfl, hmap⟩
      | cons y ys => simp at hmap
  have hmem : d ∈ Nat.digits 10 n := by rw [hd]; exact List.mem_singleton_self d
  have hd10 : d < 10 := Nat.digits_lt_base (by norm_num) hmem
  have hd0 : d = 0 := digitChar_inj_lt10 hd10 (by norm_num) h0
  have hnd : n = d := by
    have := Nat.ofDigits_digits 10 n
    rw [hd] at this
    simpa [Nat.ofDigits] using this.symm
  exact hn (hnd.trans hd0)

theorem natStr_injective : Function.Injective natStr := by
  intro a b h
  rcases eq_or_ne a 0 with rfl | ha
  · rcases eq_or_ne b 0 with rfl | hb
    · rfl
    · exact absurd h.symm (natStr_ne_zero_str hb)
  · rcases eq_or_ne b 0 with rfl | hb
    · exact absurd h (natStr_ne_zero_str ha)
    · rw [natStr_of_ne_zero ha, natStr_of_ne_zero hb] at h
      have := congrArg List.reverse h
      simp only [List.reverse_reverse] at this
      have := map_digitChar_inj _ _
        (fun x hx => Nat.digits_lt_base (by norm_num) hx)
        (fun x hx => Nat.digits_lt_base (by norm_num) hx) this
      exact Nat.digits_inj_iff.mp this

theorem natStr_no_slash (n : Nat) : ∀ c ∈ natStr n, c ≠ '/' := by
  intro c hc h
  have := natStr_all_digits n c hc
  rw [h] at this
  exact absurd this (by decide)

theorem natStr_no_dot (n : Nat) : ∀ c ∈ natStr n, c ≠ '.' := by
  intro c hc h
  have := natStr_all_digits n c hc
  rw [h] at this
  exact absurd this (by decide)

/-! ### `os.path` helpers

The program joins a directory with a relative file name, takes basenames and
dirnames, and splits extensions.  These follow the POSIX (`posixpath`)
semantics of the CPython implementations, restricted to the shapes the
program produces (relative second argument for `join`). -/

/-- Character is not the extension separator nor the path separator. -/
def notDotSlash (c : Char) : Bool := c != '.' && c != '/'

/-- Character is not the path separator. -/
def notSlash (c : Char) : Bool := c != '/'

/-- Character is not the extension separator. -/
def notDot (c : Char) : Bool := c != '.'

/-- `os.path.join(d, b)` for a relative `b`. -/
def join (d b : Str) : Str := d ++ '/' :: b

/-- `os.path.basename(p)`: everything after the last `/`. -/
def basename (p : Str) : Str := (p.reverse.takeWhile notSlash).reverse

/-- Strip trailing slashes (CPython's `head.rstrip('/')`). -/
def rstripSlash (s : Str) : Str := (s.reverse.dropWhile (fun c => c == '/')).reverse

/-- `os.path.dirname(p)`: the part up to the last `/`, with trailing slashes
stripped unless the result is all slashes. -/
def dirname (p : Str) : Str :=
  let head := (p.reverse.dropWhile notSlash).reverse
  if head.all (fun c => c == '/') then head else rstripSlash head

/-- CPython's generic `os.path.splitext`: split at the last dot, provided it
comes after the last separator and the portion of the basename before it is
not entirely dots. -/
def splitext (p : Str) : Str × Str :=
  match p.reverse.dropWhile notDotSlash with
  | '.' :: rest =>
    if (rest.takeWhile notSlash).any notDot then
      (rest.reverse, '.' :: (p.reverse.takeWhile notDotSlash).reverse)
    else (p, [])
  | _ => (p, [])

-- sanity checks against CPython behaviour
example : splitext (strOf "a.jpg") = (strOf "a", strOf ".jpg") := by decide
example : splitext (strOf "a.tar.gz") = (strOf "a.tar", strOf ".gz") := by decide
example : splitext (strOf ".bashrc") = (strOf ".bashrc", strOf "") := by decide
example : splitext (strOf "..b") = (strOf "..b", strOf "") := by decide
example : splitext (strOf "a..b") = (strOf "a.", strOf ".b") := by decide
example : splitext (strOf "noext") = (strOf "noext", strOf "") := by decide
example : splitext (strOf "d/x.y/f") = (strOf "d/x.y/f", strOf "") := by decide
example : basename (strOf "a/b/c.jpg") = strOf "c.jpg" := by decide
example : dirname (strOf "a/b/c.jpg") = strOf "a/b" := by decide
example : join (strOf "a/b") (strOf "c.jpg") = strOf "a/b/c.jpg" := by decide

/-! ### Lemmas about the path helpers -/

theorem notDotSlash_of (c : Char) (h1 : c ≠ '.') (h2 : c ≠ '/') :
    notDotSlash c = true := by
  simp [notDotSlash, h1, h2]

theorem of_notDotSlash {c : Char} (h : notDotSlash c = true) : c ≠ '.' ∧ c ≠ '/' := by
  simpa [notDotSlash] using h

theorem notSlash_of {c : Char} (h : c ≠ '/') : notSlash c = true := by
  simp [notSlash, h]

theorem of_notSlash {c : Char} (h : notSlash c = true) : c ≠ '/' := by
  simpa [notSlash] using h

theorem takeWhile_append_all {p : Char → Bool} :
    ∀ (l₁ l₂ : List Char), (∀ c ∈ l₁, p c = true) →
      (l₁ ++ l₂).takeWhile p = l₁ ++ l₂.takeWhile p
  | [], _, _ => rfl
  | a :: l₁, l₂, h => by
    have ha : p a = true := h a (List.mem_cons_self a l₁)
    simp only [List.cons_append, List.takeWhile_cons, ha, if_true]
    rw [takeWhile_append_all l₁ l₂ (fun c hc => h c (List.mem_cons_of_mem a hc))]

theorem dropWhile_append_all {p : Char → Bool} :
    ∀ (l₁ l₂ : List Char), (∀ c ∈ l₁, p c = true) →
      (l₁ ++ l₂).dropWhile p = l₂.dropWhile p
  | [], _, _ => rfl
  | a :: l₁, l₂, h => by
    have ha : p a = true := h a (List.mem_cons_self a l₁)
    simp only [List.cons_append, List.dropWhile_cons, ha, if_true]
    exact dropWhile_append_all l₁ l₂ (fun c hc => h c (List.mem_cons_of_mem a hc))

theorem takeWhile_cons_false {p : Char → Bool} {x : Char} (l : List Char)
    (hx : p x = false) : (x :: l).takeWhile p = [] := by
  simp [List.takeWhile_cons, hx]

theorem dropWhile_cons_false {p : Char → Bool} {x : Char} (l : List Char)
    (hx : p x = false) : (x :: l).dropWhile p = x :: l := by
  simp [List.dropWhile_cons, hx]

theorem takeWhile_all {p : Char → Bool} (l : List Char) (h : ∀ c ∈ l, p c = true) :
    l.takeWhile p = l := by
  have := takeWhile_append_all l [] h
  simpa using this

theorem dropWhile_all {p : Char → Bool} (l : List Char) (h : ∀ c ∈ l, p c = true) :
    l.dropWhile p = [] := by
  have := dropWhile_append_all l [] h
  simpa using this

theorem dropWhile_head_false {p : Char → Bool} :
    ∀ {l : List Char} {x : Char} {xs : List Char},
      l.dropWhile p = x :: xs → p x = false
  | [], _, _, h => by simp at h
  | a :: l, x, xs, h => by
    by_cases ha : p a
    · rw [List.dropWhile_cons, if_pos ha] at h
      exact dropWhile_head_false h
    · rw [List.dropWhile_cons, if_neg ha] at h
      cases h
      exact Bool.eq_false_iff.mpr ha

/-- `basename` of a join with a slash-free final component. -/
theorem basename_join (d b : Str) (hb : ∀ c ∈ b, c ≠ '/') :
    basename (join d b) = b := by
  unfold basename join
  have hrev : (d ++ '/' :: b).reverse = b.reverse ++ '/' :: d.reverse := by
    simp
  rw [hrev]
  rw [takeWhile_append_all b.reverse ('/' :: d.reverse)
    (fun c hc => notSlash_of (hb c (List.mem_reverse.mp hc)))]
  rw [takeWhile_cons_false _ (by simp [notSlash])]
  simp

theorem basename_no_slash (p : Str) : ∀ c ∈ basename p, c ≠ '/' := by
  intro c hc
  unfold basename at hc
  rw [List.mem_reverse] at hc
  exact of_notSlash (List.mem_takeWhile_imp hc)

/-! Case equations for `splitext`. -/

theorem splitext_eq_split {p : Str} {rest : Str}
    (hdrop : p.reverse.dropWhile notDotSlash = '.' :: rest)
    (hcond : (rest.takeWhile notSlash).any notDot = true) :
    splitext p = (rest.reverse, '.' :: (p.reverse.takeWhile notDotSlash).reverse) := by
  unfold splitext
  rw [hdrop]
  simp [hcond]

theorem splitext_eq_alldots {p : Str} {rest : Str}
    (hdrop : p.reverse.dropWhile notDotSlash = '.' :: rest)
    (hcond : (rest.takeWhile notSlash).any notDot = false) :
    splitext p = (p, []) := by
  unfold splitext
  rw [hdrop]
  simp [hcond]

theorem splitext_eq_nil {p : Str}
    (hdrop : p.reverse.dropWhile notDotSlash = []) :
    splitext p = (p, []) := by
  unfold splitext
  rw [hdrop]

theorem splitext_eq_nodot {p : Str} {c : Char} {rest : Str}
    (hdrop : p.reverse.dropWhile notDotSlash = c :: rest)
    (hc : c ≠ '.') :
    splitext p = (p, []) := by
  unfold splitext
  rw [hdrop]
  split
  · rename_i rest' heq
    injection heq with h1 _
    exact absurd h1 hc
  · rfl

/-- Splitting the reverse of `p` at the last dot reconstructs `p`. -/
theorem takeWhile_dropWhile_reverse {p : Str} {rest : Str}
    (hdrop : p.reverse.dropWhile notDotSlash = '.' :: rest) :
    p = rest.reverse ++ '.' :: (p.reverse.takeWhile notDotSlash).reverse := by
  have hsplit : p.reverse.takeWhile notDotSlash ++ '.' :: rest = p.reverse := by
    rw [← hdrop]; exact List.takeWhile_append_dropWhile notDotSlash p.reverse
  conv_lhs => rw [← List.reverse_reverse p, ← hsplit]
  simp

/-- The two components of `splitext` concatenate back to the input. -/
theorem splitext_append (p : Str) : (splitext p).1 ++ (splitext p).2 = p := by
  cases hdrop : p.reverse.dropWhile notDotSlash with
  | nil => rw [splitext_eq_nil hdrop]; simp
  | cons c rest =>
    by_cases hc : c = '.'
    · subst hc
      by_cases hcond : (rest.takeWhile notSlash).any notDot = true
      · rw [splitext_eq_split hdrop hcond]
        exact (takeWhile_dropWhile_reverse hdrop).symm
      · rw [splitext_eq_alldots hdrop (Bool.eq_false_iff.mpr hcond)]
        simp
    · rw [splitext_eq_nodot hdrop hc]
      simp


theorem notDotSlash_false {c : Char} (h : notDotSlash c = false) :
    c = '.' ∨ c = '/' := by
  by_contra hcon
  push_neg at hcon
  rw [notDotSlash_of c hcon.1 hcon.2] at h
  simp at h

theorem isDigit_notDotSlash {c : Char} (h : c.isDigit = true) :
    notDotSlash c = true := by
  rcases eq_or_ne c '.' with rfl | h1
  · exact absurd h (by decide)
  rcases eq_or_ne c '/' with rfl | h2
  · exact absurd h (by decide)
  exact notDotSlash_of c h1 h2

theorem isDigit_notSlash {c : Char} (h : c.isDigit = true) : notSlash c = true := by
  rcases eq_or_ne c '/' with rfl | h2
  · exact absurd h (by decide)
  exact notSlash_of h2

theorem mem_of_dropWhile_cons {p : Char → Bool} {l : List Char} {c : Char}
    {rest : List Char} (h : l.dropWhile p = c :: rest) : ∀ x ∈ c :: rest, x ∈ l := by
  intro x hx
  rw [← List.takeWhile_append_dropWhile p l, h]
  exact List.mem_append_right _ hx

/-- Appending `_<digits>` before the extension leaves `splitext` pieces intact:
the extension of `name_<k><ext>` is again `ext`. -/
theorem splitext_suffix (b ds : Str) (hb : ∀ c ∈ b, c ≠ '/')
    (hds : ∀ c ∈ ds, c.isDigit = true) :
    splitext ((splitext b).1 ++ '_' :: ds ++ (splitext b).2)
      = ((splitext b).1 ++ '_' :: ds, (splitext b).2) := by
  have hds' : ∀ c ∈ ds.reverse, notDotSlash c = true :=
    fun c hc => isDigit_notDotSlash (hds c (List.mem_reverse.mp hc))
  cases hdrop : b.reverse.dropWhile notDotSlash with
  | nil =>
    -- b contains neither a dot nor a slash: no extension before or after
    have heq := splitext_eq_nil hdrop
    have hall : ∀ c ∈ b.reverse, notDotSlash c = true := by
      intro c hc
      have htake : b.reverse.takeWhile notDotSlash = b.reverse := by
        have := List.takeWhile_append_dropWhile notDotSlash b.reverse
        rw [hdrop] at this
        simpa using this
      rw [← htake] at hc
      exact List.mem_takeWhile_imp hc
    rw [heq]
    simp only [List.append_nil]
    have hrev : (b ++ '_' :: ds).reverse = ds.reverse ++ '_' :: b.reverse := by simp
    have hdrop' : (b ++ '_' :: ds).reverse.dropWhile notDotSlash = [] := by
      rw [hrev, dropWhile_append_all _ _ hds']
      rw [List.dropWhile_cons, if_pos (by decide)]
      exact dropWhile_all _ hall
    rw [splitext_eq_nil hdrop']
  | cons c rest =>
    by_cases hc : c = '.'
    · subst hc
      by_cases hcond : (rest.takeWhile notSlash).any notDot = true
      · -- b really splits: b = rest.reverse ++ '.' :: after.reverse
        have heq := splitext_eq_split hdrop hcond
        have hafter : ∀ x ∈ b.reverse.takeWhile notDotSlash, notDotSlash x = true :=
          fun x hx => List.mem_takeWhile_imp hx
        rw [heq]
        simp only []
        have hrev : (rest.reverse ++ '_' :: ds ++
            '.' :: (b.reverse.takeWhile notDotSlash).reverse).reverse
            = b.reverse.takeWhile notDotSlash ++
              '.' :: (ds.reverse ++ '_' :: rest) := by
          simp
        have hdrop' : (rest.reverse ++ '_' :: ds ++
            '.' :: (b.reverse.takeWhile notDotSlash).reverse).reverse.dropWhile
              notDotSlash = '.' :: (ds.reverse ++ '_' :: rest) := by
          rw [hrev, dropWhile_append_all _ _ hafter]
          exact dropWhile_cons_false _ (by decide)
        have hcond' : ((ds.reverse ++ '_' :: rest).takeWhile notSlash).any notDot
            = true := by
          rw [takeWhile_append_all _ _
            (fun x hx => isDigit_notSlash (hds x (List.mem_reverse.mp hx)))]
          rw [List.takeWhile_cons, if_pos (by decide)]
          simp only [List.any_append, List.any_cons]
          have h1 : notDot '_' = true := by decide
          rw [h1]
          simp
        rw [splitext_eq_split hdrop' hcond']
        simp only [Prod.mk.injEq]
        constructor
        · simp
        · rw [hrev, takeWhile_append_all _ _ hafter,
            takeWhile_cons_false _ (by decide)]
          simp
      · -- the pre-dot part of the basename is all dots: no split, before or after
        have heq := splitext_eq_alldots hdrop (Bool.eq_false_iff.mpr hcond)
        have hrest_mem : ∀ x ∈ rest, x ∈ b := by
          intro x hx
          have := mem_of_dropWhile_cons hdrop x (List.mem_cons_of_mem _ hx)
          exact List.mem_reverse.mp this
        have hrest_take : rest.takeWhile notSlash = rest :=
          takeWhile_all _ (fun x hx => notSlash_of (hb x (hrest_mem x hx)))
        have hsplit : b.reverse.takeWhile notDotSlash ++ '.' :: rest = b.reverse := by
          rw [← hdrop]; exact List.takeWhile_append_dropWhile notDotSlash b.reverse
        have hafter : ∀ x ∈ b.reverse.takeWhile notDotSlash, notDotSlash x = true :=
          fun x hx => List.mem_takeWhile_imp hx
        rw [heq]
        simp only [List.append_nil]
        have hrev : (b ++ '_' :: ds).reverse = ds.reverse ++ '_' ::
            (b.reverse.takeWhile notDotSlash ++ '.' :: rest) := by
          conv_lhs => rw [← List.reverse_reverse b, ← hsplit]
          simp
        have hdrop' : (b ++ '_' :: ds).reverse.dropWhile notDotSlash
            = '.' :: rest := by
          rw [hrev, dropWhile_append_all _ _ hds']
          rw [List.dropWhile_cons, if_pos (by decide)]
          rw [dropWhile_append_all _ _ hafter]
          exact dropWhile_cons_false _ (by decide)
        have hcond' : (rest.takeWhile notSlash).any notDot = false := by
          exact Bool.eq_false_iff.mpr hcond
        rw [splitext_eq_alldots hdrop' hcond']
    · -- head of the dropWhile is not a dot: it must be a slash, impossible in b
      exfalso
      have hfalse := dropWhile_head_false hdrop
      have hmem : c ∈ b := by
        have := mem_of_dropWhile_cons hdrop c (List.mem_cons_self c rest)
        exact List.mem_reverse.mp this
      rcases notDotSlash_false hfalse with h | h
      · exact hc h
      · exact hb c hmem h

/-! ### Classification (`IMAGE_EXTENSIONS` / `VIDEO_EXTENSIONS`, lines 13-14,
138-150)

`file_lower.endswith(tuple)` in Python is a suffix test against each entry.
Note the source's `VIDEO_EXTENSIONS` contains `'mts'` with no leading dot. -/

/-- Python `str.lower()` (ASCII case folding suffices for the extensions). -/
def str_lower (s : Str) : Str := s.map Char.toLower

/-- Python `s.endswith(suffix)` for a single suffix. -/
def endswith (s suffix : Str) : Bool := suffix.isSuffixOf s

/-- `IMAGE_EXTENSIONS` from line 13 of the source. -/
def IMAGE_EXTENSIONS : List Str :=
  [strOf ".jpg", strOf ".jpeg", strOf ".png", strOf ".gif", strOf ".bmp",
   strOf ".tiff", strOf ".heic"]

/-- `VIDEO_EXTENSIONS` from line 14 of the source (the last entry really is
`'mts'`, with no dot). -/
def VIDEO_EXTENSIONS : List Str :=
  [strOf ".mp4", strOf ".mov", strOf ".avi", strOf ".mkv", strOf ".wmv",
   strOf ".flv", strOf ".3gp", strOf "mts"]

/-- The three-way classification of a filename. -/
inductive Kind where
  | Photo
  | Video
  | Ignored
deriving DecidableEq, Repr

/-- The classification decision of the walk loop (lines 138-150):
`file_lower.endswith(IMAGE_EXTENSIONS)`, then `VIDEO_EXTENSIONS`,
else the file is skipped. -/
def classify (file : Str) : Kind :=
  let file_lower := str_lower file
  if IMAGE_EXTENSIONS.any (fun e => endswith file_lower e) then .Photo
  else if VIDEO_EXTENSIONS.any (fun e => endswith file_lower e) then .Video
  else .Ignored

example : classify (strOf "IMG.JPG") = .Photo := by decide
example : classify (strOf "img.jpg") = .Photo := by decide
example : classify (strOf "img.Jpg") = .Photo := by decide
example : classify (strOf "clip.MOV") = .Video := by decide
example : classify (strOf "notes.txt") = .Ignored := by decide
example : classify (strOf "noext") = .Ignored := by decide
-- the 'mts' entry makes this Video although it has no extension at all:
example : classify (strOf "xmts") = .Video := by decide

/-! ### The filesystem model -/

/-- Per-file data.  The fields model what the OS and the metadata libraries
can report for one file; `none` in `size`/`bytes`/`mtime` means the
corresponding call (`os.path.getsize` / `open`+`read` / `os.path.getmtime`)
raises for this file.  `exifYear` collapses the whole PIL `try` block of
`get_image_year` (open, EXIF decode, `DateTimeOriginal` parse): `some y`
iff it would return year `y`.  `hasParser` is whether hachoir's
`createParser` returns a parser; `metaYear` is the result of reading the
`creation_date` metadata (`none` = `extractMetadata` raises — the exception
is caught, `some none` = no creation date present, `some (some y)` = the
creation date's year is `y`). -/
structure FileD where
  size : Option Nat
  bytes : Option (List Nat)
  mtime : Option Nat
  exifYear : Option Nat
  hasParser : Bool
  metaYear : Option (Option Nat)
deriving DecidableEq, Repr

/-- The filesystem: an association list of files, plus existing directories. -/
structure FS where
  files : List (Str × FileD)
  dirs : List Str
deriving DecidableEq, Repr

/-- The opaque external collaborators. -/
structure Env where
  /-- SHA-256 digest of a byte stream (opaque). -/
  hashFn : List Nat → Nat
  /-- `datetime.fromtimestamp(t).year` (opaque calendar arithmetic). -/
  yearOfTs : Nat → Nat
  /-- Injected I/O fault for `shutil.move src dst`. -/
  moveFails : Str → Str → Bool

def FS.lookup (fs : FS) (p : Str) : Option FileD := fs.files.lookup p

/-- `os.path.exists`. -/
def FS.pathExists (fs : FS) (p : Str) : Bool := (fs.lookup p).isSome

/-- `os.path.isdir`. -/
def FS.isdir (fs : FS) (d : Str) : Bool := fs.dirs.contains d

/-- `os.path.getsize` (`none` = raises: missing file or stat failure). -/
def getsize (fs : FS) (p : Str) : Option Nat := (fs.lookup p).bind FileD.size

/-- The keys of the file table. -/
def FS.keys (fs : FS) : List Str := fs.files.map Prod.fst


/-! ### Duplicate detection (`calculate_file_hash`, `is_duplicate`,
lines 25-53)

Each function also returns the list of paths whose *content* it read, so
that the "size mismatch short-circuits without reading content" claim can
be stated.  The boolean result is the Python return value. -/

/-- `calculate_file_hash(filepath)` (lines 25-34): stream the file's bytes
into SHA-256; on any I/O error print and return `None`.  The digest of the
chunked stream is the digest of the whole content.  Second component: the
content-read attempt this call performs. -/
def calculate_file_hash (env : Env) (fs : FS) (filepath : Str) :
    Option Nat × List Str :=
  ((fs.lookup filepath).bind (fun fd => fd.bytes.map env.hashFn), [filepath])

/-- `is_duplicate(file1, file2)` (lines 36-53) with its content-read trace:
size comparison first (any stat failure is caught and yields `False`), then
both digests, `False` if either digest failed, else digest equality. -/
def is_duplicateT (env : Env) (fs : FS) (file1 file2 : Str) : Bool × List Str :=
  match getsize fs file1, getsize fs file2 with
  | some s1, some s2 =>
    if s1 ≠ s2 then (false, [])
    else
      let r1 := calculate_file_hash env fs file1
      let r2 := calculate_file_hash env fs file2
      (match r1.1, r2.1 with
       | some h1, some h2 => h1 == h2
       | _, _ => false,
       r1.2 ++ r2.2)
  | _, _ => (false, [])

/-- The boolean result of `is_duplicate`. -/
def is_duplicate (env : Env) (fs : FS) (file1 file2 : Str) : Bool :=
  (is_duplicateT env fs file1 file2).1

/-- `is_duplicate` as a function of the two files' data alone. -/
def dupFD (env : Env) (fa fb : FileD) : Bool :=
  match fa.size, fb.size with
  | some s1, some s2 =>
    if s1 ≠ s2 then false
    else
      match fa.bytes.map env.hashFn, fb.bytes.map env.hashFn with
      | some h1, some h2 => h1 == h2
      | _, _ => false
  | _, _ => false

theorem is_duplicate_eq_dupFD {env : Env} {fs : FS} {a b : Str} {fa fb : FileD}
    (ha : fs.lookup a = some fa) (hb : fs.lookup b = some fb) :
    is_duplicate env fs a b = dupFD env fa fb := by
  unfold is_duplicate is_duplicateT dupFD getsize calculate_file_hash
  rw [ha, hb]
  simp only [Option.bind_eq_bind, Option.some_bind]
  cases fa.size with
  | none => simp
  | some s1 =>
    cases fb.size with
    | none => simp
    | some s2 =>
      by_cases h : s1 = s2 <;> simp [h]

theorem is_duplicate_false_left {env : Env} {fs : FS} {a b : Str}
    (ha : fs.lookup a = none) : is_duplicate env fs a b = false := by
  unfold is_duplicate is_duplicateT getsize
  rw [ha]
  simp

theorem is_duplicate_false_right {env : Env} {fs : FS} {a b : Str}
    (hb : fs.lookup b = none) : is_duplicate env fs a b = false := by
  unfold is_duplicate is_duplicateT getsize
  rw [hb]
  cases (fs.lookup a).bind FileD.size <;> simp

/-! ### Association-list lemmas -/

theorem lookup_cons (k : Str) (v : FileD) (l : List (Str × FileD)) (a : Str) :
    List.lookup a ((k, v) :: l) = if a = k then some v else List.lookup a l := by
  by_cases h : a = k
  · have hb : (a == k) = true := beq_iff_eq.mpr h
    simp [List.lookup, hb, h]
  · have hb : (a == k) = false := beq_eq_false_iff_ne.mpr h
    simp [List.lookup, hb, h]

theorem lookup_eq_none_iff (l : List (Str × FileD)) (k : Str) :
    List.lookup k l = none ↔ k ∉ l.map Prod.fst := by
  induction l with
  | nil => simp
  | cons e l ih =>
    obtain ⟨ek, ev⟩ := e
    rw [lookup_cons]
    by_cases h : k = ek
    · subst h
      rw [if_pos rfl]
      exact iff_of_false (fun hh => Option.noConfusion hh)
        (fun hnot => hnot (by simp only [List.map_cons]; exact List.mem_cons_self _ _))
    · rw [if_neg h, ih]
      simp only [List.map_cons, List.mem_cons]
      constructor
      · intro hnm hor
        rcases hor with h1 | h2
        · exact h h1
        · exact hnm h2
      · intro hnm hm
        exact hnm (Or.inr hm)

theorem lookup_isSome_iff (l : List (Str × FileD)) (k : Str) :
    (List.lookup k l).isSome = true ↔ k ∈ l.map Prod.fst := by
  rw [← Decidable.not_iff_not, ← lookup_eq_none_iff]
  cases List.lookup k l <;> simp

theorem eraseP_keys_sublist (l : List (Str × FileD)) (k : Str) :
    List.Sublist ((l.eraseP (fun e => e.1 == k)).map Prod.fst) (l.map Prod.fst) :=
  List.Sublist.map Prod.fst (List.eraseP_sublist l)

theorem lookup_eraseP_ne (l : List (Str × FileD)) (k q : Str) (h : q ≠ k) :
    List.lookup q (l.eraseP (fun e => e.1 == k)) = List.lookup q l := by
  induction l with
  | nil => rfl
  | cons e l ih =>
    obtain ⟨ek, ev⟩ := e
    by_cases he : ek = k
    · have hb : ((ek, ev).1 == k) = true := beq_iff_eq.mpr he
      rw [List.eraseP_cons, hb, cond_true]
      rw [lookup_cons, if_neg (by rw [he]; exact h)]
    · have hb : ((ek, ev).1 == k) = false := beq_eq_false_iff_ne.mpr he
      rw [List.eraseP_cons, hb, cond_false]
      rw [lookup_cons, lookup_cons]
      by_cases hq : q = ek
      · simp [hq]
      · rw [if_neg hq, if_neg hq]
        exact ih

theorem lookup_eraseP_self (l : List (Str × FileD)) (k : Str)
    (hnd : (l.map Prod.fst).Nodup) :
    List.lookup k (l.eraseP (fun e => e.1 == k)) = none := by
  induction l with
  | nil => rfl
  | cons e l ih =>
    obtain ⟨ek, ev⟩ := e
    simp only [List.map_cons, List.nodup_cons] at hnd
    by_cases he : ek = k
    · have hb : ((ek, ev).1 == k) = true := beq_iff_eq.mpr he
      rw [List.eraseP_cons, hb, cond_true]
      rw [lookup_eq_none_iff, ← he]
      exact hnd.1
    · have hb : ((ek, ev).1 == k) = false := beq_eq_false_iff_ne.mpr he
      rw [List.eraseP_cons, hb, cond_false]
      rw [lookup_cons, if_neg (fun hq => he (hq.symm))]
      exact ih hnd.2

/-! ### Directory creation and moving -/

/-- The chain of ancestor paths that `os.makedirs(d, exist_ok=True)` creates
(every prefix of `d` at a `/` boundary, ending with `d` itself). -/
def pathPrefixes (d : Str) : List Str :=
  let comps := d.splitOn '/'
  (List.range comps.length).map (fun i => List.intercalate ['/'] (comps.take (i + 1)))

/-- `os.makedirs(d, exist_ok=True)`: create every missing ancestor of `d`,
silently succeed on the ones that exist.  Touches only `dirs`. -/
def FS.makedirs (fs : FS) (d : Str) : FS :=
  { fs with dirs := (pathPrefixes d).filter (fun q => ! fs.dirs.contains q) ++ fs.dirs }

theorem makedirs_files (fs : FS) (d : Str) : (fs.makedirs d).files = fs.files := rfl

theorem makedirs_lookup (fs : FS) (d : Str) (p : Str) :
    (fs.makedirs d).lookup p = fs.lookup p := rfl

theorem mem_dirs_isdir {fs : FS} {q : Str} (h : q ∈ fs.dirs) : fs.isdir q = true := by
  unfold FS.isdir
  rw [List.contains_eq_any_beq]
  rw [List.any_eq_true]
  exact ⟨q, h, beq_iff_eq.mpr rfl⟩

theorem contains_of_mem {l : List Str} {a : Str} (h : a ∈ l) :
    l.contains a = true := by
  rw [List.contains_eq_any_beq, List.any_eq_true]
  exact ⟨a, h, beq_iff_eq.mpr rfl⟩

theorem mem_of_contains {l : List Str} {a : Str} (h : l.contains a = true) :
    a ∈ l := by
  rw [List.contains_eq_any_beq, List.any_eq_true] at h
  obtain ⟨x, hx, hax⟩ := h
  rw [beq_iff_eq] at hax
  exact hax ▸ hx

theorem isdir_makedirs_of_mem {fs : FS} {d q : Str} (h : q ∈ pathPrefixes d) :
    (fs.makedirs d).isdir q = true := by
  unfold FS.makedirs
  by_cases hc : fs.dirs.contains q = true
  · exact mem_dirs_isdir (List.mem_append_right _ (mem_of_contains hc))
  · have hcf : fs.dirs.contains q = false := by
      revert hc; cases fs.dirs.contains q <;> simp
    apply mem_dirs_isdir
    apply List.mem_append_left
    rw [List.mem_filter]
    exact ⟨h, by rw [hcf]; rfl⟩

/-- `d` itself is among the paths `makedirs d` ensures. -/
theorem self_mem_pathPrefixes (d : Str) : d ∈ pathPrefixes d := by
  unfold pathPrefixes
  simp only [List.mem_map, List.mem_range]
  have hne : d.splitOn '/' ≠ [] := by
    show d.splitOnP (· == '/') ≠ []
    exact List.splitOnP_ne_nil _ d
  have hlen : (d.splitOn '/').length ≠ 0 := by
    intro hzero
    exact hne (List.eq_nil_of_length_eq_zero hzero)
  refine ⟨(d.splitOn '/').length - 1, by omega, ?_⟩
  have hsucc : (d.splitOn '/').length - 1 + 1 = (d.splitOn '/').length := by omega
  rw [hsucc, List.take_length]
  exact List.intercalate_splitOn d '/'

/-- `makedirs` with `exist_ok=True` is idempotent. -/
theorem makedirs_idempotent (fs : FS) (d : Str) :
    (fs.makedirs d).makedirs d = fs.makedirs d := by
  have hfilter : (pathPrefixes d).filter
      (fun q => ! ((pathPrefixes d).filter (fun q => ! fs.dirs.contains q)
        ++ fs.dirs).contains q) = [] := by
    rw [List.filter_eq_nil_iff]
    intro q hq
    rw [Bool.not_eq_true, Bool.not_eq_false']
    by_cases hc : fs.dirs.contains q = true
    · exact contains_of_mem (List.mem_append_right _ (mem_of_contains hc))
    · have hcf : fs.dirs.contains q = false := by
        revert hc; cases fs.dirs.contains q <;> simp
      apply contains_of_mem
      apply List.mem_append_left
      rw [List.mem_filter]
      exact ⟨hq, by rw [hcf]; rfl⟩
  show FS.mk (fs.makedirs d).files _ = _
  unfold FS.makedirs
  rw [hfilter]
  simp

/-- `shutil.move(src, dst)`: on success remove `src` and bind `dst` to its
data; raise if the injected fault is set or the source is gone.  (In
`move_file_safe` the destination has always been checked free, so the
overwrite case cannot arise.) -/
def shutil_move (env : Env) (fs : FS) (src dst : Str) : Except Unit FS :=
  if env.moveFails src dst then .error ()
  else
    match fs.lookup src with
    | none => .error ()
    | some fd =>
      .ok { fs with files := (dst, fd) :: fs.files.eraseP (fun e => e.1 == src) }

/-- The candidate name `join folder f"{name}_{count}{ext}"` of the
collision loops (lines 97 and 108). -/
def suffixName (folder name ext : Str) (count : Nat) : Str :=
  join folder (name ++ '_' :: natStr count ++ ext)

theorem suffixName_inj (folder name ext : Str) {c₁ c₂ : Nat}
    (h : suffixName folder name ext c₁ = suffixName folder name ext c₂) :
    c₁ = c₂ := by
  unfold suffixName join at h
  have h1 := List.append_cancel_left h
  have h2 : name ++ '_' :: natStr c₁ ++ ext = name ++ '_' :: natStr c₂ ++ ext := by
    injection h1
  have h3 := List.append_cancel_right h2
  have h4 := List.append_cancel_left h3
  have h5 : natStr c₁ = natStr c₂ := by injection h4
  exact natStr_injective h5

/-- There is always a free numeric-suffix candidate: the candidates are
pairwise distinct and the file table is finite. -/
theorem exists_free_suffix (fs : FS) (folder name ext : Str) :
    ∃ c, fs.pathExists (suffixName folder name ext (c + 1)) = false := by
  by_contra hcon
  push_neg at hcon
  have hall : ∀ c : Nat, suffixName folder name ext (c + 1) ∈ fs.files.map Prod.fst := by
    intro c
    have ht : fs.pathExists (suffixName folder name ext (c + 1)) = true := by
      cases hpe : fs.pathExists (suffixName folder name ext (c + 1))
      · exact absurd hpe (hcon c)
      · rfl
    exact (lookup_isSome_iff _ _).mp ht
  have hinj : Function.Injective
      (fun c => suffixName folder name ext (c + 1)) := by
    intro a b hab
    have := suffixName_inj folder name ext hab
    omega
  have hsub : (Finset.range ((fs.files.map Prod.fst).toFinset.card + 1)).image
      (fun c => suffixName folder name ext (c + 1))
      ⊆ (fs.files.map Prod.fst).toFinset := by
    intro x hx
    rw [Finset.mem_image] at hx
    obtain ⟨c, _, rfl⟩ := hx
    exact List.mem_toFinset.mpr (hall c)
  have hcard := Finset.card_le_card hsub
  rw [Finset.card_image_of_injective _ hinj, Finset.card_range] at hcard
  omega

/-- The collision loop of `move_file_safe` (lines 96-98 and 107-109):
try `base` first; while the candidate exists, try
`join folder f"{name}_{count}{ext}"` with `count = 1, 2, …`.  The loop's
result is `base` if free, else the first free numeric-suffix candidate. -/
def findFreeName (fs : FS) (folder name ext base : Str) : Str :=
  if fs.pathExists base = false then base
  else suffixName folder name ext
    (Nat.find (exists_free_suffix fs folder name ext) + 1)

/-- The name the loop settles on is never taken. -/
theorem findFreeName_not_exists (fs : FS) (folder name ext base : Str) :
    fs.pathExists (findFreeName fs folder name ext base) = false := by
  unfold findFreeName
  by_cases h : fs.pathExists base = false
  · rw [if_pos h]; exact h
  · rw [if_neg h]
    exact Nat.find_spec (exists_free_suffix fs folder name ext)

/-- Full characterisation of the loop result: either the base name was free
and is used, or the base was taken and the first free `name_k` (k ≥ 1,
searched sequentially from 1) is used. -/
theorem findFreeName_spec (fs : FS) (folder name ext base : Str) :
    (fs.pathExists base = false ∧ findFreeName fs folder name ext base = base) ∨
    (fs.pathExists base = true ∧ ∃ k, 1 ≤ k ∧
      findFreeName fs folder name ext base = suffixName folder name ext k ∧
      fs.pathExists (suffixName folder name ext k) = false ∧
      ∀ j, 1 ≤ j → j < k → fs.pathExists (suffixName folder name ext j) = true) := by
  unfold findFreeName
  by_cases h : fs.pathExists base = false
  · left
    rw [if_pos h]
    exact ⟨h, rfl⟩
  · right
    rw [if_neg h]
    refine ⟨by revert h; cases fs.pathExists base <;> simp, ?_⟩
    refine ⟨Nat.find (exists_free_suffix fs folder name ext) + 1, by omega, rfl,
      Nat.find_spec (exists_free_suffix fs folder name ext), ?_⟩
    intro j hj1 hjlt
    have hmin := Nat.find_min (exists_free_suffix fs folder name ext)
      (m := j - 1) (by omega)
    have : j - 1 + 1 = j := by omega
    rw [this] at hmin
    revert hmin
    cases fs.pathExists (suffixName folder name ext j) <;> simp

/-! ### `move_file_safe` (lines 87-116) -/

/-- One console line of the program, as structured data. -/
inductive LogEntry where
  /-- "Full Duplicate detected and moved: src -> dst" (line 100). -/
  | fullDuplicate (src dst : Str)
  /-- "Name conflict resolved and moved: src -> dst" (line 111). -/
  | nameConflict (src dst : Str)
  /-- "{count} Moved: src -> dst" (line 114). -/
  | moved (count : Nat) (src dst : Str)
  /-- "Error moving file src: ..." (line 116). -/
  | moveError (src : Str)
  /-- "Source folder 'src' does not exist." (line 133). -/
  | sourceMissing (src : Str)
deriving DecidableEq, Repr

/-- `move_file_safe(src_path, dest_path, duplicates_folder, count)`
(lines 87-116).  The whole body is wrapped in `try/except`; the fallible
step is `shutil.move`, and on failure the state as of the raise is kept and
the error is printed.  The Python `count` parameter is only used in the
"Moved" message (the collision loops shadow it with their own counter,
here internal to `findFreeName`). -/
def move_file_safe (env : Env) (fs : FS) (src_path dest_path duplicates_folder : Str)
    (count : Nat) : FS × List LogEntry :=
  if fs.pathExists dest_path then
    if is_duplicate env fs src_path dest_path then
      -- full duplicate: move into the duplicates folder (lines 92-100)
      let fs1 := fs.makedirs duplicates_folder
      let name_ext := splitext (basename src_path)
      let duplicate_dest := findFreeName fs1 duplicates_folder name_ext.1 name_ext.2
        (join duplicates_folder (basename src_path))
      match shutil_move env fs1 src_path duplicate_dest with
      | .ok fs2 => (fs2, [.fullDuplicate src_path duplicate_dest])
      | .error _ => (fs1, [.moveError src_path])
    else
      -- same name, different content: numeric suffix in place (lines 102-111)
      let dest_folder := dirname dest_path
      let name_ext := splitext (basename dest_path)
      let new_dest_path := findFreeName fs dest_folder name_ext.1 name_ext.2 dest_path
      match shutil_move env fs src_path new_dest_path with
      | .ok fs2 => (fs2, [.nameConflict src_path new_dest_path])
      | .error _ => (fs, [.moveError src_path])
  else
    -- destination free: plain move (lines 112-114)
    match shutil_move env fs src_path dest_path with
    | .ok fs2 => (fs2, [.moved count src_path dest_path])
    | .error _ => (fs, [.moveError src_path])

/-! ### Year resolution (lines 55-85) -/

/-- `fallback_year(filepath)` (lines 83-85): year of the filesystem
modification time.  `os.path.getmtime` raises (`.error ()`) when the stat
fails; nothing in the source catches that. -/
def fallback_year (env : Env) (fs : FS) (filepath : Str) : Except Unit Nat :=
  match (fs.lookup filepath).bind FileD.mtime with
  | some mod_time => .ok (env.yearOfTs mod_time)
  | none => .error ()

/-- `get_image_year(filepath)` (lines 55-66): the whole PIL/EXIF attempt is
one `try` block whose successful outcome is a `DateTimeOriginal` year
(`exifYear`); on anything else it falls back.  The fallback call sits
*outside* the `try`. -/
def get_image_year (env : Env) (fs : FS) (filepath : Str) : Except Unit Nat :=
  match (fs.lookup filepath).bind FileD.exifYear with
  | some y => .ok y
  | none => fallback_year env fs filepath

/-- `get_video_year(filepath)` (lines 68-81): no parser → fallback;
metadata exception (caught) or missing creation date → fallback; the
fallback call sits outside the `try`. -/
def get_video_year (env : Env) (fs : FS) (filepath : Str) : Except Unit Nat :=
  match fs.lookup filepath with
  | none => fallback_year env fs filepath
  | some fd =>
    if ¬ fd.hasParser then fallback_year env fs filepath
    else
      match fd.metaYear with
      | some (some y) => .ok y
      | some none => fallback_year env fs filepath
      | none => fallback_year env fs filepath

/-! ### The orchestrator (`copy_media_sorted_by_year`, lines 118-172) -/

/-- The four directory parameters of the program. -/
structure Config where
  source_folder : Str
  photo_dest_folder : Str
  video_dest_folder : Str
  duplicate_root : Str
deriving DecidableEq, Repr

/-- `count_files_in_directory(directory)` (lines 18-22): number of files in
the subtree under `directory`. -/
def count_files_in_directory (fs : FS) (directory : Str) : Nat :=
  (fs.files.filter (fun e => (directory ++ ['/']).isPrefixOf e.1)).length

/-- The body of the walk loop for one `(root, file)` pair (lines 137-157).
`Except.error ()` means an uncaught exception escapes the per-file
processing (the loop has no handler).  No filesystem mutation precedes the
year resolution, so the state at such a raise is the input state. -/
def process_file (env : Env) (cfg : Config) (st : FS × Nat) (root file : Str) :
    Except Unit ((FS × Nat) × List LogEntry) :=
  let fs := st.1
  let src_path := join root file
  match classify file with
  | .Ignored => .ok (st, [])
  | .Photo => do
    let year ← get_image_year env fs src_path
    let duplicate_dest := join (join cfg.duplicate_root (strOf "Photo")) (natStr year)
    let year_folder := join cfg.photo_dest_folder (natStr year)
    let fs1 := fs.makedirs year_folder
    let dest_path := join year_folder file
    let count := st.2 + 1
    let r := move_file_safe env fs1 src_path dest_path duplicate_dest count
    .ok ((r.1, count), r.2)
  | .Video => do
    let year ← get_video_year env fs src_path
    let duplicate_dest := join (join cfg.duplicate_root (strOf "Video")) (natStr year)
    let year_folder := join cfg.video_dest_folder (natStr year)
    let fs1 := fs.makedirs year_folder
    let dest_path := join year_folder file
    let count := st.2 + 1
    let r := move_file_safe env fs1 src_path dest_path duplicate_dest count
    .ok ((r.1, count), r.2)

/-- Result of the walk: either it completed, or an uncaught exception
aborted it (carrying the state and output at the abort). -/
inductive RunResult where
  | finished (st : FS × Nat) (log : List LogEntry)
  | aborted (st : FS × Nat) (log : List LogEntry)
deriving DecidableEq, Repr

def RunResult.state : RunResult → FS × Nat
  | .finished st _ => st
  | .aborted st _ => st

def RunResult.log : RunResult → List LogEntry
  | .finished _ log => log
  | .aborted _ log => log

def RunResult.isAborted : RunResult → Bool
  | .finished _ _ => false
  | .aborted _ _ => true

/-- The `for root, _, files in os.walk(...)` double loop (lines 136-157),
over a pre-computed walk list of `(root, file)` pairs.  An exception in
`process_file` propagates: the remaining files are never reached. -/
def runWalk (env : Env) (cfg : Config) : List (Str × Str) → FS × Nat → RunResult
  | [], st => .finished st []
  | (root, file) :: rest, st =>
    match process_file env cfg st root file with
    | .error _ => .aborted st []
    | .ok (st1, log1) =>
      match runWalk env cfg rest st1 with
      | .finished st2 log2 => .finished st2 (log1 ++ log2)
      | .aborted st2 log2 => .aborted st2 (log1 ++ log2)

/-- Outcome of one whole run. -/
structure RunOutcome where
  fs : FS
  log : List LogEntry
  aborted : Bool
deriving DecidableEq, Repr

/-- `copy_media_sorted_by_year(source, photo, video, duplicates)`
(lines 118-172).  The pre-run counts (lines 120-130) only feed console
output; the missing-source check (lines 132-134) returns before the walk
loop; afterwards the post-run counts are recomputed (console output only).
`walk` is the list of `(root, file)` pairs `os.walk(source_folder)` yields. -/
def copy_media_sorted_by_year (env : Env) (fs : FS) (cfg : Config)
    (walk : List (Str × Str)) : RunOutcome :=
  if ¬ fs.isdir cfg.source_folder then
    { fs := fs, log := [.sourceMissing cfg.source_folder], aborted := false }
  else
    match runWalk env cfg walk (fs, 0) with
    | .finished (fs1, _) log => { fs := fs1, log := log, aborted := false }
    | .aborted (fs1, _) log => { fs := fs1, log := log, aborted := true }

/-! ### Lemmas about `shutil_move` and `move_file_safe` -/

theorem shutil_move_ok {env : Env} {fs : FS} {src dst : Str} {fd : FileD}
    (hfault : env.moveFails src dst = false)
    (hsrc : fs.lookup src = some fd) :
    shutil_move env fs src dst =
      .ok { fs with files := (dst, fd) :: fs.files.eraseP (fun e => e.1 == src) } := by
  unfold shutil_move
  rw [hfault, hsrc]
  simp

theorem shutil_move_fails {env : Env} {fs : FS} {src dst : Str}
    (h : env.moveFails src dst = true) :
    shutil_move env fs src dst = .error () := by
  unfold shutil_move
  rw [h]
  simp

theorem moved_lookup_dst (fs : FS) (src dst : Str) (fd : FileD) :
    FS.lookup { fs with files := (dst, fd) :: fs.files.eraseP (fun e => e.1 == src) }
      dst = some fd := by
  unfold FS.lookup
  simp only []
  rw [lookup_cons, if_pos rfl]

theorem moved_lookup_src (fs : FS) (src dst : Str) (fd : FileD)
    (h : src ≠ dst) (hnd : (fs.files.map Prod.fst).Nodup) :
    FS.lookup { fs with files := (dst, fd) :: fs.files.eraseP (fun e => e.1 == src) }
      src = none := by
  unfold FS.lookup
  simp only []
  rw [lookup_cons, if_neg h]
  exact lookup_eraseP_self fs.files src hnd

theorem moved_lookup_other (fs : FS) (src dst q : Str) (fd : FileD)
    (hqd : q ≠ dst) (hqs : q ≠ src) :
    FS.lookup { fs with files := (dst, fd) :: fs.files.eraseP (fun e => e.1 == src) }
      q = fs.lookup q := by
  unfold FS.lookup
  simp only []
  rw [lookup_cons, if_neg hqd]
  exact lookup_eraseP_ne fs.files src q hqs

theorem moved_keys_nodup (fs : FS) (src dst : Str) (fd : FileD)
    (hnd : (fs.files.map Prod.fst).Nodup) (hdst : fs.lookup dst = none) :
    ((FS.mk ((dst, fd) :: fs.files.eraseP (fun e => e.1 == src)) fs.dirs).files.map
      Prod.fst).Nodup := by
  simp only [List.map_cons, List.nodup_cons]
  constructor
  · intro hmem
    have hsub := (eraseP_keys_sublist fs.files src).subset hmem
    exact (lookup_eq_none_iff fs.files dst).mp hdst hsub
  · exact hnd.sublist (eraseP_keys_sublist fs.files src)

theorem move_file_safe_clear {env : Env} {fs : FS} {src dest dupF : Str}
    {count : Nat} (hdest : fs.pathExists dest = false) :
    move_file_safe env fs src dest dupF count =
      match shutil_move env fs src dest with
      | .ok fs2 => (fs2, [.moved count src dest])
      | .error _ => (fs, [.moveError src]) := by
  unfold move_file_safe
  rw [hdest]
  simp

theorem move_file_safe_dup {env : Env} {fs : FS} {src dest dupF : Str}
    {count : Nat} (hdest : fs.pathExists dest = true)
    (hdup : is_duplicate env fs src dest = true) :
    move_file_safe env fs src dest dupF count =
      (let fs1 := fs.makedirs dupF
       let name_ext := splitext (basename src)
       let duplicate_dest := findFreeName fs1 dupF name_ext.1 name_ext.2
         (join dupF (basename src))
       match shutil_move env fs1 src duplicate_dest with
       | .ok fs2 => (fs2, [.fullDuplicate src duplicate_dest])
       | .error _ => (fs1, [.moveError src])) := by
  unfold move_file_safe
  rw [hdest, hdup]
  simp

theorem move_file_safe_conflict {env : Env} {fs : FS} {src dest dupF : Str}
    {count : Nat} (hdest : fs.pathExists dest = true)
    (hdup : is_duplicate env fs src dest = false) :
    move_file_safe env fs src dest dupF count =
      (let dest_folder := dirname dest
       let name_ext := splitext (basename dest)
       let new_dest_path := findFreeName fs dest_folder name_ext.1 name_ext.2 dest
       match shutil_move env fs src new_dest_path with
       | .ok fs2 => (fs2, [.nameConflict src new_dest_path])
       | .error _ => (fs, [.moveError src])) := by
  unfold move_file_safe
  rw [hdest, hdup]
  simp

/-! ### Concrete sample data used by the witnesses -/

/-- An environment with no injected I/O faults; the digest is an arbitrary
concrete function of the content, the calendar an arbitrary concrete
function of the timestamp. -/
def sampleEnv : Env :=
  { hashFn := List.sum, yearOfTs := fun t => t, moveFails := fun _ _ => false }

/-- An environment in which every move raises. -/
def failEnv : Env :=
  { hashFn := List.sum, yearOfTs := fun t => t, moveFails := fun _ _ => true }

/-- A plain statable, readable file with no usable metadata. -/
def fdPlain (sz : Nat) (bs : List Nat) : FileD :=
  { size := some sz, bytes := some bs, mtime := some 2020, exifYear := none,
    hasParser := false, metaYear := none }

def srcA : Str := strOf "src/a.jpg"
def destA : Str := strOf "photo/2020/a.jpg"

def fsPair : FS :=
  { files := [(srcA, fdPlain 3 [1, 2, 3]), (destA, fdPlain 4 [9, 9, 9, 9])],
    dirs := [strOf "src", strOf "photo"] }

/-! ### Claim C3 -/

/-- C3: `is_duplicate` returns `true` for every pair of existing files with
equal size and equal digest, and for unequal sizes it returns `false`
without reading either file's content (empty content-read trace). -/
theorem C3_size_digest_semantics (env : Env) (fs : FS) (a b : Str)
    (fa fb : FileD) (ha : fs.lookup a = some fa) (hb : fs.lookup b = some fb) :
    (∀ s ba bb, fa.size = some s → fb.size = some s →
      fa.bytes = some ba → fb.bytes = some bb →
      env.hashFn ba = env.hashFn bb →
      is_duplicate env fs a b = true) ∧
    (∀ s1 s2, fa.size = some s1 → fb.size = some s2 → s1 ≠ s2 →
      is_duplicateT env fs a b = (false, [])) := by
  constructor
  · intro s ba bb hs1 hs2 hba hbb hh
    unfold is_duplicate is_duplicateT getsize calculate_file_hash
    rw [ha, hb]
    simp only [Option.some_bind, hs1, hs2, hba, hbb]
    simp [hh]
  · intro s1 s2 hs1 hs2 hne
    unfold is_duplicateT getsize
    rw [ha, hb]
    simp only [Option.some_bind, hs1, hs2]
    simp [hne]

/-- C3 at a concrete input: two existing files of sizes 3 ≠ 4. -/
theorem C3_size_digest_semantics_witness :
    fsPair.lookup srcA = some (fdPlain 3 [1, 2, 3]) ∧
    fsPair.lookup destA = some (fdPlain 4 [9, 9, 9, 9]) ∧
    ((∀ s ba bb, (fdPlain 3 [1, 2, 3]).size = some s →
        (fdPlain 4 [9, 9, 9, 9]).size = some s →
        (fdPlain 3 [1, 2, 3]).bytes = some ba →
        (fdPlain 4 [9, 9, 9, 9]).bytes = some bb →
        sampleEnv.hashFn ba = sampleEnv.hashFn bb →
        is_duplicate sampleEnv fsPair srcA destA = true) ∧
      (∀ s1 s2, (fdPlain 3 [1, 2, 3]).size = some s1 →
        (fdPlain 4 [9, 9, 9, 9]).size = some s2 → s1 ≠ s2 →
        is_duplicateT sampleEnv fsPair srcA destA = (false, []))) :=
  ⟨by decide, by decide,
    C3_size_digest_semantics sampleEnv fsPair srcA destA _ _ (by decide) (by decide)⟩

/-! ### Claim C7 -/

/-- C7: if hashing either file fails (its digest computation returns `None`),
`is_duplicate` returns `false`, never `true`. -/
theorem C7_hash_error_fails_open (env : Env) (fs : FS) (a b : Str)
    (h : (calculate_file_hash env fs a).1 = none ∨
         (calculate_file_hash env fs b).1 = none) :
    is_duplicate env fs a b = false := by
  unfold is_duplicate is_duplicateT
  cases hga : getsize fs a with
  | none => simp
  | some s1 =>
    cases hgb : getsize fs b with
    | none => simp
    | some s2 =>
      by_cases hs : s1 ≠ s2
      · simp [hs]
      · simp only []
        rw [if_neg hs]
        simp only []
        rcases h with h | h
        · rw [h]
        · rw [h]
          cases (calculate_file_hash env fs a).1 <;> rfl

/-- A file whose content read raises. -/
def fdUnreadable : FileD :=
  { size := some 3, bytes := none, mtime := some 2020, exifYear := none,
    hasParser := false, metaYear := none }

def fsUnreadable : FS :=
  { files := [(srcA, fdUnreadable), (destA, fdPlain 3 [1, 2, 3])],
    dirs := [strOf "src", strOf "photo"] }

/-- C7 at a concrete input: same sizes, first file unreadable. -/
theorem C7_hash_error_fails_open_witness :
    ((calculate_file_hash sampleEnv fsUnreadable srcA).1 = none ∨
      (calculate_file_hash sampleEnv fsUnreadable destA).1 = none) ∧
    is_duplicate sampleEnv fsUnreadable srcA destA = false :=
  ⟨Or.inl (by decide),
    C7_hash_error_fails_open sampleEnv fsUnreadable srcA destA (Or.inl (by decide))⟩

/-! ### Claim C10 -/

/-- C10 (implicit): the duplicate test is symmetric in its two arguments,
also on every failure path (missing file, stat failure, read failure). -/
theorem C10_is_duplicate_symmetric (env : Env) (fs : FS) (a b : Str) :
    is_duplicate env fs a b = is_duplicate env fs b a := by
  unfold is_duplicate is_duplicateT
  cases hga : getsize fs a with
  | none => cases hgb : getsize fs b <;> simp
  | some s1 =>
    cases hgb : getsize fs b with
    | none => simp
    | some s2 =>
      by_cases hs : s1 = s2
      · subst hs
        simp only [ne_eq, not_true_eq_false, if_false, reduceIte]
        cases (calculate_file_hash env fs a).1 <;>
          cases (calculate_file_hash env fs b).1 <;>
          simp [beq_iff_eq, eq_comm]
      · have hs' : s2 ≠ s1 := fun hh => hs hh.symm
        simp [hs, hs']

/-! ### Claim C6 -/

/-- C6: for a video file from which no creation date can be extracted (no
parser, metadata absent, or extraction raises), the resolved year is the
year of the filesystem modification time. -/
theorem C6_video_fallback_mtime_year (env : Env) (fs : FS) (p : Str)
    (fd : FileD) (t : Nat) (hl : fs.lookup p = some fd)
    (hmeta : fd.hasParser = false ∨ fd.metaYear = some none ∨ fd.metaYear = none)
    (hmtime : fd.mtime = some t) :
    get_video_year env fs p = .ok (env.yearOfTs t) := by
  unfold get_video_year fallback_year
  rw [hl]
  simp only [Option.some_bind, hmtime]
  by_cases hp : fd.hasParser = false
  · rw [hp]
    simp
  · have hpt : fd.hasParser = true := by
      revert hp; cases fd.hasParser <;> simp
    rw [hpt]
    rcases hmeta with h | h | h
    · exact absurd h (by rw [hpt]; exact fun hh => Bool.noConfusion hh)
    · rw [h]
      simp
    · rw [h]
      simp

/-- A video file: parser opens, but metadata extraction raises; modification
timestamp 2021 (standing for 2021-06-01). -/
def fdVideo : FileD :=
  { size := some 7, bytes := some [5, 5, 5, 5, 5, 5, 5], mtime := some 2021,
    exifYear := none, hasParser := true, metaYear := none }

def srcV : Str := strOf "src/clip.mp4"

def fsVideo : FS := { files := [(srcV, fdVideo)], dirs := [strOf "src"] }

/-- C6 at a concrete input: the year resolves to `yearOfTs 2021 = 2021`. -/
theorem C6_video_fallback_mtime_year_witness :
    fsVideo.lookup srcV = some fdVideo ∧
    (fdVideo.hasParser = false ∨ fdVideo.metaYear = some none ∨
      fdVideo.metaYear = none) ∧
    fdVideo.mtime = some 2021 ∧
    get_video_year sampleEnv fsVideo srcV = .ok 2021 :=
  ⟨by decide, Or.inr (Or.inr (by decide)), by decide,
    C6_video_fallback_mtime_year sampleEnv fsVideo srcV fdVideo 2021
      (by decide) (Or.inr (Or.inr (by decide))) (by decide)⟩

/-! ### Claim C2

The claim says classification is an extension lookup, with every
no-extension filename Ignored.  The source's `VIDEO_EXTENSIONS` contains
`'mts'` (no dot), and `str.endswith` is a suffix test, so the
extension-less filename `"xmts"` classifies as Video.  The constant's name
(`VIDEO_EXTENSIONS`) and the leading dot on every other entry show the
intent the spec describes; the missing dot is a slip in the code. -/

/-- C2 (code bug, evaluated at the failing input): `"xmts"` has no
extension, yet classifies as Video; the case-insensitive Photo examples
from the spec do hold. -/
theorem C2_mts_entry_misclassifies :
    (splitext (strOf "xmts")).2 = strOf "" ∧
    classify (strOf "xmts") = Kind.Video ∧
    classify (strOf "IMG.JPG") = Kind.Photo ∧
    classify (strOf "img.jpg") = Kind.Photo ∧
    classify (strOf "img.Jpg") = Kind.Photo ∧
    classify (strOf "clip.mov") = Kind.Video ∧
    classify (strOf "notes.txt") = Kind.Ignored ∧
    classify (strOf "noext") = Kind.Ignored := by
  decide

/-! ### Claim C9 -/

/-- C9: when the source folder is not a directory, the run returns before
the walk: the file table and the directories are unchanged (zero moves,
zero directory creations) and the failure is reported. -/
theorem C9_missing_source_aborts_run (env : Env) (fs : FS) (cfg : Config)
    (walk : List (Str × Str)) (h : fs.isdir cfg.source_folder = false) :
    copy_media_sorted_by_year env fs cfg walk =
      { fs := fs, log := [.sourceMissing cfg.source_folder], aborted := false } := by
  unfold copy_media_sorted_by_year
  rw [h]
  simp

def cfgSample : Config :=
  { source_folder := strOf "missing", photo_dest_folder := strOf "photo",
    video_dest_folder := strOf "video", duplicate_root := strOf "dup" }

/-- C9 at a concrete input: `"missing"` is not a directory of `fsPair`. -/
theorem C9_missing_source_aborts_run_witness :
    fsPair.isdir cfgSample.source_folder = false ∧
    copy_media_sorted_by_year sampleEnv fsPair cfgSample
        [(strOf "missing", strOf "a.jpg")] =
      { fs := fsPair, log := [.sourceMissing cfgSample.source_folder],
        aborted := false } :=
  ⟨by decide,
    C9_missing_source_aborts_run sampleEnv fsPair cfgSample
      [(strOf "missing", strOf "a.jpg")] (by decide)⟩

/-! ### Claim C8 -/

/-- C8: if the move itself raises, `move_file_safe` returns normally with
exactly one error report, the file table is unchanged (the file stays at
its source, nothing else moves, no retry happens — a single `moveError`
entry is the whole output). -/
theorem C8_move_failure_caught (env : Env) (fs : FS) (src dest dupF : Str)
    (count : Nat) (hfail : ∀ d, env.moveFails src d = true) :
    (move_file_safe env fs src dest dupF count).1.files = fs.files ∧
    (move_file_safe env fs src dest dupF count).1.lookup src = fs.lookup src ∧
    (move_file_safe env fs src dest dupF count).2 = [.moveError src] := by
  by_cases hdest : fs.pathExists dest = true
  · by_cases hdup : is_duplicate env fs src dest = true
    · rw [move_file_safe_dup hdest hdup]
      simp only []
      rw [shutil_move_fails (hfail _)]
      exact ⟨rfl, rfl, rfl⟩
    · have hdup' : is_duplicate env fs src dest = false := by
        revert hdup; cases is_duplicate env fs src dest <;> simp
      rw [move_file_safe_conflict hdest hdup']
      simp only []
      rw [shutil_move_fails (hfail _)]
      exact ⟨rfl, rfl, rfl⟩
  · have hdest' : fs.pathExists dest = false := by
      revert hdest; cases fs.pathExists dest <;> simp
    rw [move_file_safe_clear hdest']
    rw [shutil_move_fails (hfail _)]
    exact ⟨rfl, rfl, rfl⟩

/-- C8 at a concrete input: every move from `srcA` raises under `failEnv`. -/
theorem C8_move_failure_caught_witness :
    (∀ d, failEnv.moveFails srcA d = true) ∧
    ((move_file_safe failEnv fsPair srcA destA (strOf "dup") 1).1.files
        = fsPair.files ∧
      (move_file_safe failEnv fsPair srcA destA (strOf "dup") 1).1.lookup srcA
        = fsPair.lookup srcA ∧
      (move_file_safe failEnv fsPair srcA destA (strOf "dup") 1).2
        = [.moveError srcA]) :=
  ⟨fun _ => rfl,
    C8_move_failure_caught failEnv fsPair srcA destA (strOf "dup") 1 (fun _ => rfl)⟩

/-! ### Claim C4

The claim says no exception escapes per-file processing and that a failing
stat makes the caller skip the file and continue.  In the source,
`fallback_year`'s `os.path.getmtime` call sits outside every `try` block,
and the walk loop in `copy_media_sorted_by_year` has no handler: a stat
failure aborts the whole run.  Only the move step (`move_file_safe`)
isolates its errors. -/

/-- A photo file whose stat (`os.path.getmtime`) raises and that has no
EXIF date: year resolution raises. -/
def fdBadStat : FileD :=
  { size := some 3, bytes := some [1, 2, 3], mtime := none, exifYear := none,
    hasParser := false, metaYear := none }

def srcRoot : Str := strOf "srcdir"

def fsBad : FS :=
  { files := [(join srcRoot (strOf "bad.jpg"), fdBadStat),
              (join srcRoot (strOf "good.jpg"), fdPlain 3 [1, 2, 3])],
    dirs := [strOf "srcdir"] }

def cfgRun : Config :=
  { source_folder := strOf "srcdir", photo_dest_folder := strOf "photo",
    video_dest_folder := strOf "video", duplicate_root := strOf "dup" }

/-- C4 is false as stated: at this concrete input the exception escapes the
per-file processing of `bad.jpg` and the whole run aborts — `good.jpg` is
never reached, nothing is moved, nothing is reported. -/
theorem C4_stat_failure_escapes_counterexample :
    process_file sampleEnv cfgRun (fsBad, 0) srcRoot (strOf "bad.jpg")
      = .error () ∧
    copy_media_sorted_by_year sampleEnv fsBad cfgRun
        [(srcRoot, strOf "bad.jpg"), (srcRoot, strOf "good.jpg")]
      = { fs := fsBad, log := [], aborted := true } := by
  decide

/-- C4 as amended: an error inside the move step is always caught (per-file
processing returns normally whenever year resolution succeeds, whatever the
move does), but a stat failure in the modification-time fallback propagates
out of year resolution and aborts the entire run, with the state unchanged
and the remaining files unprocessed. -/
theorem C4_move_errors_isolated_year_errors_abort (env : Env) (cfg : Config)
    (fs : FS) (count : Nat) (root file : Str) (rest : List (Str × Str))
    (hkind : classify file ≠ .Ignored)
    (himg : get_image_year env fs (join root file) = .error ())
    (hvid : get_video_year env fs (join root file) = .error ()) :
    process_file env cfg (fs, count) root file = .error () ∧
    runWalk env cfg ((root, file) :: rest) (fs, count) = .aborted (fs, count) [] ∧
    (∀ (env2 : Env) (st : FS × Nat) (root2 file2 : Str) (y1 y2 : Nat),
      get_image_year env2 st.1 (join root2 file2) = .ok y1 →
      get_video_year env2 st.1 (join root2 file2) = .ok y2 →
      ∃ st2 log2, process_file env2 cfg st root2 file2 = .ok (st2, log2)) := by
  have herr : process_file env cfg (fs, count) root file = .error () := by
    unfold process_file
    cases hcl : classify file with
    | Ignored => exact absurd hcl hkind
    | Photo =>
      simp only []
      rw [himg]
      rfl
    | Video =>
      simp only []
      rw [hvid]
      rfl
  refine ⟨herr, ?_, ?_⟩
  · unfold runWalk
    rw [herr]
  · intro env2 st root2 file2 y1 y2 himg2 hvid2
    unfold process_file
    cases hcl : classify file2 with
    | Ignored => exact ⟨st, [], rfl⟩
    | Photo =>
      simp only []
      rw [himg2]
      exact ⟨_, _, rfl⟩
    | Video =>
      simp only []
      rw [hvid2]
      exact ⟨_, _, rfl⟩

/-- The amended C4 at a concrete input (`bad.jpg` under `fsBad`). -/
theorem C4_move_errors_isolated_year_errors_abort_witness :
    classify (strOf "bad.jpg") ≠ .Ignored ∧
    get_image_year sampleEnv fsBad (join srcRoot (strOf "bad.jpg")) = .error () ∧
    get_video_year sampleEnv fsBad (join srcRoot (strOf "bad.jpg")) = .error () ∧
    (process_file sampleEnv cfgRun (fsBad, 0) srcRoot (strOf "bad.jpg")
        = .error () ∧
      runWalk sampleEnv cfgRun [(srcRoot, strOf "bad.jpg")] (fsBad, 0)
        = .aborted (fsBad, 0) [] ∧
      (∀ (env2 : Env) (st : FS × Nat) (root2 file2 : Str) (y1 y2 : Nat),
        get_image_year env2 st.1 (join root2 file2) = .ok y1 →
        get_video_year env2 st.1 (join root2 file2) = .ok y2 →
        ∃ st2 log2, process_file env2 cfgRun st root2 file2 = .ok (st2, log2))) :=
  ⟨by decide, by decide, by decide,
    C4_move_errors_isolated_year_errors_abort sampleEnv cfgRun fsBad 0 srcRoot
      (strOf "bad.jpg") [] (by decide) (by decide) (by decide)⟩

/-! ### Claim C1 -/

theorem lookup_none_of_pathExists_false {fs : FS} {p : Str}
    (h : fs.pathExists p = false) : fs.lookup p = none := by
  unfold FS.pathExists at h
  cases hl : fs.lookup p
  · rfl
  · rw [hl] at h
    simp at h

theorem pathExists_false_of_lookup_none {fs : FS} {p : Str}
    (h : fs.lookup p = none) : fs.pathExists p = false := by
  unfold FS.pathExists
  rw [h]
  rfl

/-- C1: the three-way behaviour of `Relocate` (`move_file_safe`) under a
fault-free move.  (1) Free destination: `src` moves there directly.
(2) Content duplicate: the duplicates folder is created (recursively, and
idempotently), and `src` moves into it under its basename, or under the
first free `name_k.ext` (k = 1, 2, … tried in order) if the basename is
taken.  (3) Same name, different content: `src` moves into the original
destination directory under the first free `name_k.ext`.  In every case the
chosen name was unoccupied and no other file changes. -/
theorem C1_relocate_three_way (env : Env) (fs : FS) (src dest dupF : Str)
    (count : Nat) (fd : FileD)
    (hfault : ∀ a b, env.moveFails a b = false)
    (hsrc : fs.lookup src = some fd)
    (hnd : (fs.files.map Prod.fst).Nodup) :
    (fs.pathExists dest = false →
      (move_file_safe env fs src dest dupF count).1.lookup dest = some fd ∧
      (move_file_safe env fs src dest dupF count).1.lookup src = none ∧
      (∀ q, q ≠ src → q ≠ dest →
        (move_file_safe env fs src dest dupF count).1.lookup q = fs.lookup q) ∧
      (move_file_safe env fs src dest dupF count).2 = [.moved count src dest]) ∧
    (fs.pathExists dest = true → is_duplicate env fs src dest = true →
      ∃ t, t = findFreeName (fs.makedirs dupF) dupF (splitext (basename src)).1
          (splitext (basename src)).2 (join dupF (basename src)) ∧
        fs.pathExists t = false ∧
        (move_file_safe env fs src dest dupF count).1.lookup t = some fd ∧
        (move_file_safe env fs src dest dupF count).1.lookup src = none ∧
        (∀ q, q ≠ src → q ≠ t →
          (move_file_safe env fs src dest dupF count).1.lookup q = fs.lookup q) ∧
        (∀ q ∈ pathPrefixes dupF,
          (move_file_safe env fs src dest dupF count).1.isdir q = true) ∧
        (fs.makedirs dupF).makedirs dupF = fs.makedirs dupF ∧
        (t = join dupF (basename src) ∨
          (fs.pathExists (join dupF (basename src)) = true ∧ ∃ k, 1 ≤ k ∧
            t = suffixName dupF (splitext (basename src)).1
              (splitext (basename src)).2 k ∧
            ∀ j, 1 ≤ j → j < k → fs.pathExists (suffixName dupF
              (splitext (basename src)).1 (splitext (basename src)).2 j) = true)) ∧
        (move_file_safe env fs src dest dupF count).2 = [.fullDuplicate src t]) ∧
    (fs.pathExists dest = true → is_duplicate env fs src dest = false →
      ∃ t, t = findFreeName fs (dirname dest) (splitext (basename dest)).1
          (splitext (basename dest)).2 dest ∧
        fs.pathExists t = false ∧
        (move_file_safe env fs src dest dupF count).1.lookup t = some fd ∧
        (move_file_safe env fs src dest dupF count).1.lookup src = none ∧
        (∀ q, q ≠ src → q ≠ t →
          (move_file_safe env fs src dest dupF count).1.lookup q = fs.lookup q) ∧
        (∃ k, 1 ≤ k ∧ t = suffixName (dirname dest) (splitext (basename dest)).1
            (splitext (basename dest)).2 k ∧
          ∀ j, 1 ≤ j → j < k → fs.pathExists (suffixName (dirname dest)
            (splitext (basename dest)).1 (splitext (basename dest)).2 j) = true) ∧
        (move_file_safe env fs src dest dupF count).2 = [.nameConflict src t]) := by
  refine ⟨?_, ?_, ?_⟩
  · -- branch 1: destination free
    intro hdest
    have hdn : fs.lookup dest = none := lookup_none_of_pathExists_false hdest
    have hne : src ≠ dest := by
      intro h
      rw [h, hdn] at hsrc
      exact Option.noConfusion hsrc
    rw [move_file_safe_clear hdest, shutil_move_ok (hfault _ _) hsrc]
    simp only []
    exact ⟨moved_lookup_dst fs src dest fd,
      moved_lookup_src fs src dest fd hne hnd,
      fun q hqs hqd => moved_lookup_other fs src dest q fd hqd hqs,
      trivial⟩
  · -- branch 2: content duplicate
    intro hdest hdup
    refine ⟨findFreeName (fs.makedirs dupF) dupF (splitext (basename src)).1
      (splitext (basename src)).2 (join dupF (basename src)), rfl, ?_⟩
    have hfree : (fs.makedirs dupF).pathExists
        (findFreeName (fs.makedirs dupF) dupF (splitext (basename src)).1
          (splitext (basename src)).2 (join dupF (basename src))) = false :=
      findFreeName_not_exists _ _ _ _ _
    have hfree' : fs.pathExists
        (findFreeName (fs.makedirs dupF) dupF (splitext (basename src)).1
          (splitext (basename src)).2 (join dupF (basename src))) = false := hfree
    have htn : fs.lookup
        (findFreeName (fs.makedirs dupF) dupF (splitext (basename src)).1
          (splitext (basename src)).2 (join dupF (basename src))) = none :=
      lookup_none_of_pathExists_false hfree'
    have hnet : src ≠ findFreeName (fs.makedirs dupF) dupF
        (splitext (basename src)).1 (splitext (basename src)).2
        (join dupF (basename src)) := by
      intro h
      rw [h, htn] at hsrc
      exact Option.noConfusion hsrc
    rw [move_file_safe_dup hdest hdup]
    simp only []
    rw [@shutil_move_ok env (fs.makedirs dupF) src _ fd (hfault _ _) hsrc]
    simp only []
    refine ⟨hfree', moved_lookup_dst (fs.makedirs dupF) src _ fd,
      moved_lookup_src (fs.makedirs dupF) src _ fd hnet hnd,
      fun q hqs hqt => moved_lookup_other (fs.makedirs dupF) src _ q fd hqt hqs,
      fun q hq => isdir_makedirs_of_mem hq,
      makedirs_idempotent fs dupF, ?_, trivial⟩
    rcases findFreeName_spec (fs.makedirs dupF) dupF (splitext (basename src)).1
      (splitext (basename src)).2 (join dupF (basename src)) with
      ⟨hbfree, heq⟩ | ⟨hbtaken, k, hk1, heq, hkfree, hmin⟩
    · exact Or.inl heq
    · exact Or.inr ⟨hbtaken, k, hk1, heq, fun j h1 h2 => hmin j h1 h2⟩
  · -- branch 3: same name, different content
    intro hdest hdup
    refine ⟨findFreeName fs (dirname dest) (splitext (basename dest)).1
      (splitext (basename dest)).2 dest, rfl, ?_⟩
    have hfree : fs.pathExists
        (findFreeName fs (dirname dest) (splitext (basename dest)).1
          (splitext (basename dest)).2 dest) = false :=
      findFreeName_not_exists _ _ _ _ _
    have htn : fs.lookup
        (findFreeName fs (dirname dest) (splitext (basename dest)).1
          (splitext (basename dest)).2 dest) = none :=
      lookup_none_of_pathExists_false hfree
    have hnet : src ≠ findFreeName fs (dirname dest) (splitext (basename dest)).1
        (splitext (basename dest)).2 dest := by
      intro h
      rw [h, htn] at hsrc
      exact Option.noConfusion hsrc
    rw [move_file_safe_conflict hdest hdup]
    simp only []
    rw [shutil_move_ok (hfault _ _) hsrc]
    simp only []
    refine ⟨hfree, moved_lookup_dst fs src _ fd,
      moved_lookup_src fs src _ fd hnet hnd,
      fun q hqs hqt => moved_lookup_other fs src _ q fd hqt hqs, ?_, trivial⟩
    rcases findFreeName_spec fs (dirname dest) (splitext (basename dest)).1
      (splitext (basename dest)).2 dest with
      ⟨hbfree, heq⟩ | ⟨hbtaken, k, hk1, heq, hkfree, hmin⟩
    · rw [hdest] at hbfree
      exact Bool.noConfusion hbfree
    · exact ⟨k, hk1, heq, fun j h1 h2 => hmin j h1 h2⟩

/-- C1 at a concrete input: a fault-free environment, `srcA` present, keys
distinct. -/
theorem C1_relocate_three_way_witness :
    (∀ a b, sampleEnv.moveFails a b = false) ∧
    fsPair.lookup srcA = some (fdPlain 3 [1, 2, 3]) ∧
    (fsPair.files.map Prod.fst).Nodup ∧
    ((fsPair.pathExists destA = false →
      (move_file_safe sampleEnv fsPair srcA destA (strOf "dup") 1).1.lookup destA
          = some (fdPlain 3 [1, 2, 3]) ∧
      (move_file_safe sampleEnv fsPair srcA destA (strOf "dup") 1).1.lookup srcA
          = none ∧
      (∀ q, q ≠ srcA → q ≠ destA →
        (move_file_safe sampleEnv fsPair srcA destA (strOf "dup") 1).1.lookup q
          = fsPair.lookup q) ∧
      (move_file_safe sampleEnv fsPair srcA destA (strOf "dup") 1).2
          = [.moved 1 srcA destA]) ∧
    (fsPair.pathExists destA = true →
      is_duplicate sampleEnv fsPair srcA destA = true →
      ∃ t, t = findFreeName (fsPair.makedirs (strOf "dup")) (strOf "dup")
          (splitext (basename srcA)).1 (splitext (basename srcA)).2
          (join (strOf "dup") (basename srcA)) ∧
        fsPair.pathExists t = false ∧
        (move_file_safe sampleEnv fsPair srcA destA (strOf "dup") 1).1.lookup t
            = some (fdPlain 3 [1, 2, 3]) ∧
        (move_file_safe sampleEnv fsPair srcA destA (strOf "dup") 1).1.lookup srcA
            = none ∧
        (∀ q, q ≠ srcA → q ≠ t →
          (move_file_safe sampleEnv fsPair srcA destA (strOf "dup") 1).1.lookup q
            = fsPair.lookup q) ∧
        (∀ q ∈ pathPrefixes (strOf "dup"),
          (move_file_safe sampleEnv fsPair srcA destA (strOf "dup") 1).1.isdir q
            = true) ∧
        (fsPair.makedirs (strOf "dup")).makedirs (strOf "dup")
            = fsPair.makedirs (strOf "dup") ∧
        (t = join (strOf "dup") (basename srcA) ∨
          (fsPair.pathExists (join (strOf "dup") (basename srcA)) = true ∧
            ∃ k, 1 ≤ k ∧
            t = suffixName (strOf "dup") (splitext (basename srcA)).1
              (splitext (basename srcA)).2 k ∧
            ∀ j, 1 ≤ j → j < k → fsPair.pathExists (suffixName (strOf "dup")
              (splitext (basename srcA)).1 (splitext (basename srcA)).2 j)
                = true)) ∧
        (move_file_safe sampleEnv fsPair srcA destA (strOf "dup") 1).2
            = [.fullDuplicate srcA t]) ∧
    (fsPair.pathExists destA = true →
      is_duplicate sampleEnv fsPair srcA destA = false →
      ∃ t, t = findFreeName fsPair (dirname destA) (splitext (basename destA)).1
          (splitext (basename destA)).2 destA ∧
        fsPair.pathExists t = false ∧
        (move_file_safe sampleEnv fsPair srcA destA (strOf "dup") 1).1.lookup t
            = some (fdPlain 3 [1, 2, 3]) ∧
        (move_file_safe sampleEnv fsPair srcA destA (strOf "dup") 1).1.lookup srcA
            = none ∧
        (∀ q, q ≠ srcA → q ≠ t →
          (move_file_safe sampleEnv fsPair srcA destA (strOf "dup") 1).1.lookup q
            = fsPair.lookup q) ∧
        (∃ k, 1 ≤ k ∧ t = suffixName (dirname destA)
            (splitext (basename destA)).1 (splitext (basename destA)).2 k ∧
          ∀ j, 1 ≤ j → j < k → fsPair.pathExists (suffixName (dirname destA)
            (splitext (basename destA)).1 (splitext (basename destA)).2 j)
              = true) ∧
        (move_file_safe sampleEnv fsPair srcA destA (strOf "dup") 1).2
            = [.nameConflict srcA t])) :=
  ⟨fun _ _ => rfl, by decide, by decide,
    C1_relocate_three_way sampleEnv fsPair srcA destA (strOf "dup") 1
      (fdPlain 3 [1, 2, 3]) (fun _ _ => rfl) (by decide) (by decide)⟩

/-! ### Claim C5

Relocating a batch of same-basename files into one destination, one
`move_file_safe` call per file, as the walk loop does for files that map to
the same destination path. -/

/-- Repeated relocation: each source in turn is offered the same proposed
destination path (the walk computes `join year_folder file`, identical for
same-named files of the same year). -/
def relocateAll (env : Env) (fs : FS) (srcs : List Str) (dest dupF : Str) :
    FS × List LogEntry :=
  match srcs with
  | [] => (fs, [])
  | s :: rest =>
    ((relocateAll env (move_file_safe env fs s dest dupF 0).1 rest dest dupF).1,
      (move_file_safe env fs s dest dupF 0).2 ++
        (relocateAll env (move_file_safe env fs s dest dupF 0).1 rest dest dupF).2)

/-- The destination filenames the log reports as receiving a file. -/
def movedTargets : List LogEntry → List Str
  | [] => []
  | .fullDuplicate _ d :: rest => d :: movedTargets rest
  | .nameConflict _ d :: rest => d :: movedTargets rest
  | .moved _ _ d :: rest => d :: movedTargets rest
  | .moveError _ :: rest => movedTargets rest
  | .sourceMissing _ :: rest => movedTargets rest

theorem movedTargets_append : ∀ (l₁ l₂ : List LogEntry),
    movedTargets (l₁ ++ l₂) = movedTargets l₁ ++ movedTargets l₂
  | [], _ => rfl
  | e :: l₁, l₂ => by
    cases e <;> simp [movedTargets, movedTargets_append l₁ l₂]

/-- The duplicate test on two optional lookups: what `is_duplicate`
computes when the paths resolve to these table entries. -/
def dupOpt (env : Env) : Option FileD → Option FileD → Bool
  | some fa, some fb => dupFD env fa fb
  | _, _ => false

/-- C5: relocating N pairwise distinct-content, same-basename files into one
destination folder yields N distinct filenames, each preserving the
original extension (the shared basename's extension); every chosen name was
unoccupied when chosen (never reused within the run), and no pre-existing
file is overwritten.  Hypotheses: no move faults, distinct keys, the
sources exist, are pairwise non-duplicates (distinct size or digest) and
are non-duplicates of whatever initially occupies the destination. -/
theorem C5_batch_relocation_distinct_names (env : Env) (dest dupF : Str)
    (hfault : ∀ a b, env.moveFails a b = false) :
    ∀ (srcs : List Str) (fs : FS),
      (fs.files.map Prod.fst).Nodup →
      srcs.Nodup →
      (∀ s ∈ srcs, basename s = basename dest) →
      (∀ s ∈ srcs, (fs.lookup s).isSome = true) →
      (∀ s ∈ srcs, s ≠ dest) →
      (∀ s ∈ srcs, ∀ u ∈ srcs, s ≠ u →
        dupOpt env (fs.lookup s) (fs.lookup u) = false) →
      (∀ s ∈ srcs, dupOpt env (fs.lookup s) (fs.lookup dest) = false) →
      (movedTargets (relocateAll env fs srcs dest dupF).2).length = srcs.length ∧
      (movedTargets (relocateAll env fs srcs dest dupF).2).Nodup ∧
      (∀ p ∈ movedTargets (relocateAll env fs srcs dest dupF).2,
        (splitext (basename p)).2 = (splitext (basename dest)).2 ∧
        (p = dest ∨ ∃ k, 1 ≤ k ∧ p = suffixName (dirname dest)
          (splitext (basename dest)).1 (splitext (basename dest)).2 k)) ∧
      (∀ q, (fs.lookup q).isSome = true → q ∉ srcs →
        (relocateAll env fs srcs dest dupF).1.lookup q = fs.lookup q ∧
        q ∉ movedTargets (relocateAll env fs srcs dest dupF).2) := by
  intro srcs
  induction srcs with
  | nil =>
    intro fs _ _ _ _ _ _ _
    refine ⟨rfl, List.nodup_nil, ?_, ?_⟩
    · intro p hp
      exact absurd hp (List.not_mem_nil p)
    · intro q _ _
      exact ⟨rfl, List.not_mem_nil q⟩
  | cons s rest ih =>
    intro fs hnd hsnd hbase hpres hndest hpair hdest0
    obtain ⟨fds, hfds⟩ := Option.isSome_iff_exists.mp
      (hpres s (List.mem_cons_self s rest))
    have hs_notin : s ∉ rest := (List.nodup_cons.mp hsnd).1
    have hrest_nd : rest.Nodup := (List.nodup_cons.mp hsnd).2
    obtain ⟨t, entry, htn, hstep, hmt, hext, hshape, hdestnew⟩ :
      ∃ t entry,
        fs.lookup t = none ∧
        move_file_safe env fs s dest dupF 0 =
          (FS.mk ((t, fds) :: fs.files.eraseP (fun e => e.1 == s)) fs.dirs, [entry]) ∧
        movedTargets [entry] = [t] ∧
        (splitext (basename t)).2 = (splitext (basename dest)).2 ∧
        (t = dest ∨ ∃ k, 1 ≤ k ∧ t = suffixName (dirname dest)
          (splitext (basename dest)).1 (splitext (basename dest)).2 k) ∧
        (∀ u ∈ rest, dupOpt env
          (FS.lookup (FS.mk ((t, fds) :: fs.files.eraseP (fun e => e.1 == s)) fs.dirs) u)
          (FS.lookup (FS.mk ((t, fds) :: fs.files.eraseP (fun e => e.1 == s)) fs.dirs) dest)
          = false) := by
      by_cases hdexists : fs.pathExists dest = true
      · -- destination occupied: this is the name-conflict branch
        obtain ⟨f0, hf0⟩ := Option.isSome_iff_exists.mp hdexists
        have hdup : is_duplicate env fs s dest = false := by
          rw [is_duplicate_eq_dupFD hfds hf0]
          have := hdest0 s (List.mem_cons_self s rest)
          rw [hfds, hf0] at this
          simpa [dupOpt] using this
        rcases findFreeName_spec fs (dirname dest) (splitext (basename dest)).1
          (splitext (basename dest)).2 dest with
          ⟨hbf, _⟩ | ⟨_, k, hk1, heq, hkfree, _⟩
        · rw [hbf] at hdexists
          exact Bool.noConfusion hdexists
        · have htfree : fs.pathExists (findFreeName fs (dirname dest)
              (splitext (basename dest)).1 (splitext (basename dest)).2 dest)
              = false := findFreeName_not_exists _ _ _ _ _
          have htnone := lookup_none_of_pathExists_false htfree
          have hdest_ne_t : dest ≠ findFreeName fs (dirname dest)
              (splitext (basename dest)).1 (splitext (basename dest)).2 dest := by
            intro hh
            rw [← hh] at htnone
            rw [htnone] at hf0
            exact Option.noConfusion hf0
          refine ⟨findFreeName fs (dirname dest) (splitext (basename dest)).1
              (splitext (basename dest)).2 dest,
            .nameConflict s (findFreeName fs (dirname dest)
              (splitext (basename dest)).1 (splitext (basename dest)).2 dest),
            htnone, ?_, rfl, ?_, Or.inr ⟨k, hk1, heq⟩, ?_⟩
          · rw [move_file_safe_conflict hdexists hdup]
            simp only []
            rw [shutil_move_ok (hfault _ _) hfds]
          · -- extension preserved on the k-suffixed name
            rw [heq]
            have hsf : ∀ c ∈ (splitext (basename dest)).1 ++
                '_' :: natStr k ++ (splitext (basename dest)).2, c ≠ '/' := by
              intro c hc
              have hc' : c ∈ (splitext (basename dest)).1 ∨ c = '_' ∨
                  c ∈ natStr k ∨ c ∈ (splitext (basename dest)).2 := by
                simpa [List.mem_append, List.mem_cons, or_assoc] using hc
              rcases hc' with h | h | h | h
              · exact basename_no_slash dest c
                  (by rw [← splitext_append (basename dest)]
                      exact List.mem_append_left _ h)
              · rw [h]; decide
              · exact natStr_no_slash k c h
              · exact basename_no_slash dest c
                  (by rw [← splitext_append (basename dest)]
                      exact List.mem_append_right _ h)
            show (splitext (basename (suffixName (dirname dest)
              (splitext (basename dest)).1 (splitext (basename dest)).2 k))).2
              = (splitext (basename dest)).2
            unfold suffixName
            rw [basename_join _ _ hsf]
            rw [splitext_suffix (basename dest) (natStr k)
              (basename_no_slash dest) (natStr_all_digits k)]
          · -- the non-duplicate hypothesis survives the move
            intro u hu
            have hu_ne_t : u ≠ findFreeName fs (dirname dest)
                (splitext (basename dest)).1 (splitext (basename dest)).2 dest := by
              intro hh
              have := hpres u (List.mem_cons_of_mem s hu)
              rw [hh, htnone] at this
              exact Bool.noConfusion this
            have hu_ne_s : u ≠ s := fun hh => hs_notin (hh ▸ hu)
            rw [moved_lookup_other fs s _ u fds hu_ne_t hu_ne_s]
            rw [moved_lookup_other fs s _ dest fds hdest_ne_t
              (fun hh => (hndest s (List.mem_cons_self s rest)) hh.symm)]
            exact hdest0 u (List.mem_cons_of_mem s hu)
      · -- destination free: clear branch, the head takes dest itself
        have hdf : fs.pathExists dest = false := by
          revert hdexists
          cases fs.pathExists dest <;> simp
        have hdn := lookup_none_of_pathExists_false hdf
        refine ⟨dest, .moved 0 s dest, hdn, ?_, rfl, rfl, Or.inl rfl, ?_⟩
        · rw [move_file_safe_clear hdf]
          rw [shutil_move_ok (hfault _ _) hfds]
        · intro u hu
          have hu_ne_dest : u ≠ dest := hndest u (List.mem_cons_of_mem s hu)
          have hu_ne_s : u ≠ s := fun hh => hs_notin (hh ▸ hu)
          rw [moved_lookup_other fs s dest u fds hu_ne_dest hu_ne_s]
          rw [moved_lookup_dst fs s dest fds]
          have := hpair u (List.mem_cons_of_mem s hu) s
            (List.mem_cons_self s rest) hu_ne_s
          rw [hfds] at this
          exact this
    -- the state after the head's move
    have hnd' : ((FS.mk ((t, fds) :: fs.files.eraseP (fun e => e.1 == s))
        fs.dirs).files.map Prod.fst).Nodup := moved_keys_nodup fs s t fds hnd htn
    have hlookup_t : FS.lookup (FS.mk ((t, fds) ::
        fs.files.eraseP (fun e => e.1 == s)) fs.dirs) t = some fds :=
      moved_lookup_dst fs s t fds
    have hrest_ne_t : ∀ u ∈ rest, u ≠ t := by
      intro u hu hut
      have := hpres u (List.mem_cons_of_mem s hu)
      rw [hut, htn] at this
      exact Bool.noConfusion this
    have hrest_ne_s : ∀ u ∈ rest, u ≠ s := fun u hu hh => hs_notin (hh ▸ hu)
    have hlookup_other : ∀ q, q ≠ t → q ≠ s → FS.lookup (FS.mk ((t, fds) ::
        fs.files.eraseP (fun e => e.1 == s)) fs.dirs) q = fs.lookup q :=
      fun q hqt hqs => moved_lookup_other fs s t q fds hqt hqs
    have hpres' : ∀ u ∈ rest, (FS.lookup (FS.mk ((t, fds) ::
        fs.files.eraseP (fun e => e.1 == s)) fs.dirs) u).isSome = true := by
      intro u hu
      rw [hlookup_other u (hrest_ne_t u hu) (hrest_ne_s u hu)]
      exact hpres u (List.mem_cons_of_mem s hu)
    have hbase' : ∀ u ∈ rest, basename u = basename dest :=
      fun u hu => hbase u (List.mem_cons_of_mem s hu)
    have hndest' : ∀ u ∈ rest, u ≠ dest :=
      fun u hu => hndest u (List.mem_cons_of_mem s hu)
    have hpair' : ∀ u ∈ rest, ∀ v ∈ rest, u ≠ v →
        dupOpt env
          (FS.lookup (FS.mk ((t, fds) :: fs.files.eraseP (fun e => e.1 == s)) fs.dirs) u)
          (FS.lookup (FS.mk ((t, fds) :: fs.files.eraseP (fun e => e.1 == s)) fs.dirs) v)
          = false := by
      intro u hu v hv huv
      rw [hlookup_other u (hrest_ne_t u hu) (hrest_ne_s u hu)]
      rw [hlookup_other v (hrest_ne_t v hv) (hrest_ne_s v hv)]
      exact hpair u (List.mem_cons_of_mem s hu) v (List.mem_cons_of_mem s hv) huv
    have ihres := ih (FS.mk ((t, fds) :: fs.files.eraseP (fun e => e.1 == s))
        fs.dirs) hnd' hrest_nd hbase' hpres' hndest' hpair' hdestnew
    obtain ⟨ihlen, ihnodup, ihext, ihkeep⟩ := ihres
    have hrel : relocateAll env fs (s :: rest) dest dupF =
      ((relocateAll env (FS.mk ((t, fds) :: fs.files.eraseP (fun e => e.1 == s))
          fs.dirs) rest dest dupF).1,
        [entry] ++ (relocateAll env (FS.mk ((t, fds) ::
          fs.files.eraseP (fun e => e.1 == s)) fs.dirs) rest dest dupF).2) := by
      simp only [relocateAll]
      rw [hstep]
    rw [hrel]
    rw [movedTargets_append, hmt, List.singleton_append]
    have ht_notin_picks : t ∉ movedTargets (relocateAll env (FS.mk ((t, fds) ::
        fs.files.eraseP (fun e => e.1 == s)) fs.dirs) rest dest dupF).2 := by
      have := ihkeep t (by rw [hlookup_t]; rfl)
        (fun ht => hrest_ne_t t ht rfl)
      exact this.2
    refine ⟨?_, ?_, ?_, ?_⟩
    · simp [ihlen]
    · exact List.nodup_cons.mpr ⟨ht_notin_picks, ihnodup⟩
    · intro p hp
      rcases List.mem_cons.mp hp with h | h
      · rw [h]
        exact ⟨hext, hshape⟩
      · exact ihext p h
    · intro q hq hqmem
      have hq_ne_s : q ≠ s := fun hh => hqmem (hh ▸ List.mem_cons_self s rest)
      have hq_notin : q ∉ rest := fun hh => hqmem (List.mem_cons_of_mem s hh)
      have hq_ne_t : q ≠ t := by
        intro hh
        rw [hh, htn] at hq
        exact Bool.noConfusion hq
      have hq' : FS.lookup (FS.mk ((t, fds) ::
          fs.files.eraseP (fun e => e.1 == s)) fs.dirs) q = fs.lookup q :=
        hlookup_other q hq_ne_t hq_ne_s
      have hq'some : (FS.lookup (FS.mk ((t, fds) ::
          fs.files.eraseP (fun e => e.1 == s)) fs.dirs) q).isSome = true := by
        rw [hq']
        exact hq
      obtain ⟨e1, e2⟩ := ihkeep q hq'some hq_notin
      refine ⟨by rw [e1, hq'], ?_⟩
      intro hmem
      rcases List.mem_cons.mp hmem with h | h
      · exact hq_ne_t h
      · exact e2 h

def srcA2 : Str := strOf "src2/a.jpg"

/-- Two same-basename sources of distinct sizes, plus an occupied
destination of a third size. -/
def fsTriple : FS :=
  { files := [(srcA, fdPlain 3 [1, 2, 3]), (srcA2, fdPlain 5 [1, 1, 1, 1, 1]),
              (destA, fdPlain 4 [9, 9, 9, 9])],
    dirs := [strOf "src", strOf "src2", strOf "photo"] }

/-- C5 at a concrete input: relocating `src/a.jpg` and `src2/a.jpg` onto the
occupied `photo/2020/a.jpg`. -/
theorem C5_batch_relocation_distinct_names_witness :
    (∀ a b, sampleEnv.moveFails a b = false) ∧
    (fsTriple.files.map Prod.fst).Nodup ∧
    [srcA, srcA2].Nodup ∧
    (∀ s ∈ [srcA, srcA2], basename s = basename destA) ∧
    (∀ s ∈ [srcA, srcA2], (fsTriple.lookup s).isSome = true) ∧
    (∀ s ∈ [srcA, srcA2], s ≠ destA) ∧
    (∀ s ∈ [srcA, srcA2], ∀ u ∈ [srcA, srcA2], s ≠ u →
      dupOpt sampleEnv (fsTriple.lookup s) (fsTriple.lookup u) = false) ∧
    (∀ s ∈ [srcA, srcA2],
      dupOpt sampleEnv (fsTriple.lookup s) (fsTriple.lookup destA) = false) ∧
    ((movedTargets (relocateAll sampleEnv fsTriple [srcA, srcA2] destA
        (strOf "dup")).2).length = [srcA, srcA2].length ∧
      (movedTargets (relocateAll sampleEnv fsTriple [srcA, srcA2] destA
        (strOf "dup")).2).Nodup ∧
      (∀ p ∈ movedTargets (relocateAll sampleEnv fsTriple [srcA, srcA2] destA
          (strOf "dup")).2,
        (splitext (basename p)).2 = (splitext (basename destA)).2 ∧
        (p = destA ∨ ∃ k, 1 ≤ k ∧ p = suffixName (dirname destA)
          (splitext (basename destA)).1 (splitext (basename destA)).2 k)) ∧
      (∀ q, (fsTriple.lookup q).isSome = true → q ∉ [srcA, srcA2] →
        (relocateAll sampleEnv fsTriple [srcA, srcA2] destA
          (strOf "dup")).1.lookup q = fsTriple.lookup q ∧
        q ∉ movedTargets (relocateAll sampleEnv fsTriple [srcA, srcA2] destA
          (strOf "dup")).2)) :=
  ⟨fun _ _ => rfl, by decide, by decide, by decide, by decide, by decide,
    by decide, by decide,
    C5_batch_relocation_distinct_names sampleEnv destA (strOf "dup")
      (fun _ _ => rfl) [srcA, srcA2] fsTriple (by decide) (by decide)
      (by decide) (by decide) (by decide) (by decide) (by decide)⟩
